import Mathlib

/-!
Shallow embedding of the course-planning core in src/backend/plannerLogic.js:
the requirement resolver (getRequirements, over an abstract data layer) and
the rule-based term scheduler (generatePlan), together with proofs of the
spec's testable properties.

JavaScript values are modelled as follows: course records become a `Course`
structure whose possibly-absent fields (prerequisites, semesters_offered,
options_pool) are `Option`s (absent / non-array ↦ `none`); the `Map` used
for the unmet-prerequisite counters becomes a function `String → Int`
updated pointwise (all reads in the source happen at keys that were
initialised, so the default is irrelevant); machine numbers that hold
credit totals and counters become `Int`.  The places where the JavaScript
would throw a `TypeError` (a catalog lookup returning `undefined` whose
fields are then accessed) are modelled with `Option`: `generatePlan`
returns `none` exactly on the states where the source would throw, and we
prove it never does.
-/

/-- A course record as consumed by the scheduler
(`{course_id, name, credits, prerequisites, semesters_offered}`).
`prerequisites` and `semesters_offered` are `Option`s because the source
tolerates their absence (`course.prerequisites || []`,
`course.semesters_offered && ...`). -/
structure Course where
  course_id : String
  name : String
  credits : Int
  prerequisites : Option (List String)
  semesters_offered : Option (List String)
deriving DecidableEq, Repr

/-- A requirement row: the scheduler only reads `options_pool`, guarded by
`req.options_pool && Array.isArray(req.options_pool)` (absent / non-array
modelled as `none`). -/
structure Requirement where
  program_id : Nat
  options_pool : Option (List String)
deriving DecidableEq, Repr

/-- An entry of a schedule slot's `courses` array: `{id, name, credits}`. -/
structure ScheduledCourse where
  id : String
  name : String
  credits : Int
deriving DecidableEq, Repr

/-- One term instance (`scheduleSlot` in the source). -/
structure ScheduleSlot where
  year : Int
  semester : String
  courses : List ScheduledCourse
  credits : Int
deriving DecidableEq, Repr

/-- An entry of the `unmet_requirements` output array. -/
structure UnmetRequirement where
  course_id : String
  reason : String
deriving DecidableEq, Repr

/-- The value returned by `generatePlan`. -/
structure Plan where
  schedule : List ScheduleSlot
  unmet_requirements : List UnmetRequirement
  message : String
deriving DecidableEq, Repr

/-- `course.prerequisites || []`. -/
def prereqList (c : Course) : List String :=
  c.prerequisites.getD []

/-- The semesters-offered list with the absent case defaulted: membership in
this list coincides with `course.semesters_offered &&
course.semesters_offered.includes(sem)` in the source. -/
def offeredList (c : Course) : List String :=
  c.semesters_offered.getD []

/-- The `courseLookup` Map built by `new Map(catalog.map(c => [c.course_id, c]))`:
when several catalog entries share an id the later entry wins, hence the
`reverse`. -/
def courseLookup (catalog : List Course) (id : String) : Option Course :=
  catalog.reverse.find? (fun c => c.course_id == id)

/-- The mutable `prereqStatus` Map, modelled as a total function (every read
in the source is at a key initialised by `initializePrereqStatus`). -/
def Counter : Type := String → Int

/-- Pointwise update of a counter map (`prereqStatus.set(k, v)`). -/
def setCounter (st : Counter) (k : String) (v : Int) : Counter :=
  fun x => if x = k then v else st x

/-- `initializePrereqStatus`: every catalog course's counter starts at the
length of its prerequisite list. -/
def initializePrereqStatus (catalog : List Course) : Counter :=
  catalog.foldl (fun st c => setCounter st c.course_id ((prereqList c).length : Int))
    (fun _ => 0)

/-- One decrement pass over (a prefix of) the catalog for a satisfied course
id `sid`: every entry listing `sid` as a prerequisite has its counter
decremented (the inner `catalog.forEach` of both decrement sites). -/
def decrementDependents (entries : List Course) (st : Counter) (sid : String) : Counter :=
  entries.foldl
    (fun s c =>
      if sid ∈ prereqList c then setCounter s c.course_id (s c.course_id - 1) else s)
    st

/-- One step of the pre-seeding pass: a completed id is processed only if it
exists in the catalog (`if (completedCourse)`). -/
def presatisfyStep (catalog : List Course) (st : Counter) (cid : String) : Counter :=
  if (courseLookup catalog cid).isSome then decrementDependents catalog st cid else st

/-- The full pre-seeding pass over `completedCourses`. -/
def presatisfy (catalog : List Course) (completedCourses : List String) (st : Counter) :
    Counter :=
  completedCourses.foldl (presatisfyStep catalog) st

/-- Requirement resolution: the insertion-ordered set `requiredCourseIDs`
(union over each requirement's `options_pool` of the ids present in the
catalog) materialised as a list. -/
def resolveRequired (requirements : List Requirement) (catalog : List Course) :
    List String :=
  requirements.foldl
    (fun acc req =>
      match req.options_pool with
      | some pool =>
          pool.foldl
            (fun acc2 id =>
              if (courseLookup catalog id).isSome ∧ id ∉ acc2 then acc2 ++ [id] else acc2)
            acc
      | none => acc)
    []

/-- The initial `coursePool`: the resolved required ids minus the completed
courses (`completedCourses.forEach(id => requiredCourseIDs.delete(id))`). -/
def coursePool0 (requirements : List Requirement) (catalog : List Course)
    (completedCourses : List String) : List String :=
  (resolveRequired requirements catalog).filter (fun id => decide (id ∉ completedCourses))

/-- `MAX_CREDITS = 16`. -/
def MAX_CREDITS : Int := 16

/-- The sort key of the comparator
`(a, b) => a.semesters_offered.length - b.semesters_offered.length`. -/
def lenLE (a b : Course) : Prop :=
  (offeredList a).length ≤ (offeredList b).length

instance : DecidableRel lenLE := fun _ _ => Nat.decLe _ _

instance : IsTotal Course lenLE := ⟨fun _ _ => Nat.le_total _ _⟩

instance : IsTrans Course lenLE := ⟨fun _ _ _ h h2 => Nat.le_trans h h2⟩

/-- The eligible list of step 4 of the source: courses in the pool offered
this semester whose unmet-prerequisite counter is exactly zero, sorted
ascending by the number of semesters in which they are offered.
Array.prototype.sort with a consistent comparator is a stable sort (ES2019);
the stable sort by a total preorder is unique, so the structurally recursive
insertion sort models it exactly. -/
def eligList (sem : String) (ctr : Counter) (courses : List Course) : List Course :=
  (courses.filter
      (fun c => decide (sem ∈ offeredList c) && (ctr c.course_id == 0))).insertionSort lenLE

/-- The body of the scheduling loop of step 5: a course is appended to the
slot exactly when it still fits under the credit cap; otherwise the
accumulator is unchanged and the walk continues. -/
def selStep (acc : List Course × Int) (c : Course) : List Course × Int :=
  if acc.2 + c.credits ≤ MAX_CREDITS then (acc.1 ++ [c], acc.2 + c.credits) else acc

/-- Step 5 of the source: walk the sorted eligible list accumulating every
course that still fits under the credit cap; returns the scheduled course
list together with the running credit total. -/
def selectFold (eligible : List Course) : List Course × Int :=
  eligible.foldl selStep ([], 0)

/-- Step 6 of the source, folded over `scheduledThisSemester`: each scheduled
id is removed from the pool and its dependents' counters are decremented. -/
def updateState (catalog : List Course) (ps : List String × Counter)
    (scheduledIds : List String) : List String × Counter :=
  scheduledIds.foldl
    (fun ps sid => (ps.1.filter (fun id => id ≠ sid), decrementDependents catalog ps.2 sid))
    ps

/-- Projection of a course into a slot's `courses` entry. -/
def mkScheduled (c : Course) : ScheduledCourse :=
  { id := c.course_id, name := c.name, credits := c.credits }

/-- The mutable state of the term loop: schedule so far, remaining pool,
prerequisite counters. -/
def PlanState : Type := List ScheduleSlot × List String × Counter

/-- The state after one term, given the pool's looked-up course records:
the slot built from the greedy walk over the sorted eligible list is
appended to the schedule, and the pool and counters are updated per
scheduled course. -/
def termNext (catalog : List Course) (sched : List ScheduleSlot) (pool : List String)
    (ctr : Counter) (pair : Int × String) (courses : List Course) : PlanState :=
  (sched ++
      [{ year := pair.1, semester := pair.2,
         courses := (selectFold (eligList pair.2 ctr courses)).1.map mkScheduled,
         credits := (selectFold (eligList pair.2 ctr courses)).2 }],
    (updateState catalog (pool, ctr)
        ((selectFold (eligList pair.2 ctr courses)).1.map Course.course_id)).1,
    (updateState catalog (pool, ctr)
        ((selectFold (eligList pair.2 ctr courses)).1.map Course.course_id)).2)

/-- One iteration of the term loop for the (year, semester) pair `pair`.
`pool.mapM (courseLookup catalog)` models `coursePool.map(id =>
courseLookup.get(id))` followed by the field accesses of the filter: a pool
id missing from the catalog would make the source throw, modelled as
`none`. -/
def scheduleTerm (catalog : List Course) (state : PlanState) (pair : Int × String) :
    Option PlanState :=
  (state.2.1.mapM (courseLookup catalog)).map (termNext catalog state.1 state.2.1 state.2.2 pair)

/-- The fixed chronological term sequence: years `startYear .. startYear+3`,
each contributing a Fall slot then a Spring slot. -/
def termPairs (startYear : Int) : List (Int × String) :=
  (List.range 4).flatMap
    (fun y => [("Fall" : String), ("Spring" : String)].map (fun s => (startYear + (y : Int), s)))

/-- The term loop over a list of (year, semester) pairs. -/
def runTerms (catalog : List Course) (pairs : List (Int × String)) (state : PlanState) :
    Option PlanState :=
  pairs.foldlM (scheduleTerm catalog) state

/-- The state at the head of the term loop: empty schedule, resolved pool,
counters pre-seeded from the completed courses. -/
def initState (requirements : List Requirement) (catalog : List Course)
    (completedCourses : List String) : PlanState :=
  ([], coursePool0 requirements catalog completedCourses,
    presatisfy catalog completedCourses (initializePrereqStatus catalog))

/-- The fixed reason string attached to every unmet requirement. -/
def unmetReason : String :=
  "Could not be scheduled due to timing, prerequisites, or credit limits."

/-- Step 7 of the source: package the final state into the returned plan. -/
def buildPlan (state : PlanState) : Plan :=
  { schedule := state.1,
    unmet_requirements := state.2.1.map (fun id => { course_id := id, reason := unmetReason }),
    message :=
      "Plan generated successfully, with " ++ toString state.2.1.length ++
        " requirements left unmet." }

/-- `generatePlan(requirements, catalog, completedCourses, startYear)`.
`none` marks the states where the source would throw a `TypeError` (a pool
id absent from the catalog); totality is proved below. -/
def generatePlan (requirements : List Requirement) (catalog : List Course)
    (completedCourses : List String) (startYear : Int) : Option Plan :=
  (runTerms catalog (termPairs startYear)
      (initState requirements catalog completedCourses)).map buildPlan

/-! ### Derived notions used by the statements -/

/-- The completed ids that pass the `if (completedCourse)` existence check:
exactly those processed by the pre-satisfy pass. -/
def completedInCat (catalog : List Course) (completed : List String) : List String :=
  completed.filter (fun id => (courseLookup catalog id).isSome)

/-- How many entries of `sats` occur in `c`'s prerequisite list: the number
of decrements course `c`'s counter has received after the satisfier ids
`sats` have each been through a full decrement pass. -/
def countSat (sats : List String) (c : Course) : Nat :=
  (sats.filter (fun s => decide (s ∈ prereqList c))).length

/-- How many entries of `entries` have id `x` and list `sid` as a
prerequisite: the number of decrements key `x` receives in one decrement
pass over `entries` for satisfier `sid`. -/
def countDep (entries : List Course) (sid : String) (x : String) : Nat :=
  entries.countP (fun e => e.course_id == x && decide (sid ∈ prereqList e))

/-- Iterated full decrement passes, one per satisfier id. -/
def applySats (catalog : List Course) (sats : List String) (st : Counter) : Counter :=
  sats.foldl (fun s sid => decrementDependents catalog s sid) st

/-- All course ids placed in the slots of a schedule, in order. -/
def schedIdsOf (sched : List ScheduleSlot) : List String :=
  (sched.map (fun s => s.courses.map ScheduledCourse.id)).flatten

/-- Occurrences of id `x` inside one slot. -/
def slotCount (slot : ScheduleSlot) (x : String) : Nat :=
  slot.courses.countP (fun sc => sc.id == x)

/-- Total occurrences of id `x` across all slots of a plan. -/
def schedCount (plan : Plan) (x : String) : Nat :=
  (plan.schedule.map (fun s => slotCount s x)).sum

/-- Occurrences of id `x` in the unmet-requirements list of a plan. -/
def unmetCount (plan : Plan) (x : String) : Nat :=
  plan.unmet_requirements.countP (fun u => u.course_id == x)

/-- C1's property, spelled over every intermediate counter state of a run:
the initial counters, the counters after any prefix of the pre-satisfy pass
(including mid-pass, after any prefix of the catalog scan for the completed
id being processed), and the counters reached inside any term's
post-scheduling decrement pass (after any prefix of the scheduled ids and
any prefix of the catalog scan for the id being processed). -/
def CountersNonneg (requirements : List Requirement) (catalog : List Course)
    (completed : List String) (startYear : Int) : Prop :=
  (∀ c ∈ catalog, 0 ≤ initializePrereqStatus catalog c.course_id) ∧
  (∀ pre suf, completed = pre ++ suf →
    ∀ c ∈ catalog, 0 ≤ presatisfy catalog pre (initializePrereqStatus catalog) c.course_id) ∧
  (∀ pre cur suf, completed = pre ++ cur :: suf → (courseLookup catalog cur).isSome →
    ∀ j, ∀ c ∈ catalog,
      0 ≤ decrementDependents (catalog.take j)
            (presatisfy catalog pre (initializePrereqStatus catalog)) cur c.course_id) ∧
  (∀ k state,
    runTerms catalog ((termPairs startYear).take k)
        (initState requirements catalog completed) = some state →
    (∀ c ∈ catalog, 0 ≤ state.2.2 c.course_id) ∧
    (∀ (sem : String) courses, state.2.1.mapM (courseLookup catalog) = some courses →
      ∀ selPre sid selSuf,
        (selectFold (eligList sem state.2.2 courses)).1.map Course.course_id
          = selPre ++ sid :: selSuf →
        ∀ j, ∀ c ∈ catalog,
          0 ≤ decrementDependents (catalog.take j)
                (applySats catalog selPre state.2.2) sid c.course_id))

/-- C2's property: a course appears in a slot only if each of its
prerequisites was scheduled in a strictly earlier slot or is among the
completed courses. -/
def PrereqsRespected (requirements : List Requirement) (catalog : List Course)
    (completed : List String) (startYear : Int) : Prop :=
  ∀ plan, generatePlan requirements catalog completed startYear = some plan →
    ∀ i slot, plan.schedule[i]? = some slot →
      ∀ sc ∈ slot.courses, ∀ course, courseLookup catalog sc.id = some course →
        ∀ p ∈ prereqList course,
          p ∈ completed ∨ ∃ slot2 ∈ plan.schedule.take i, ∃ sc2 ∈ slot2.courses, sc2.id = p

/-! ### The requirement resolver (getRequirements) -/

/-- Modelled from the spec: the data-access layer (the `db` module) is not
part of the planner source; section 6 of the spec gives its contract as
three read-only queries: program-id lookup by exact name, requirement rows
by program ids, and the full catalog.  `getRequirements` itself is
translated from the source on top of this interface. -/
structure DataLayer where
  findProgramIdsByName : List String → List Nat
  findRequirementsByProgramIds : List Nat → List Requirement
  fetchFullCatalog : List Course

/-- The pair of row sets returned by `getRequirements`. -/
structure RequirementsBundle where
  requirements : List Requirement
  catalog : List Course
deriving DecidableEq, Repr

/-- The error taxonomy of the resolver: the `NotFoundError` thrown when no
selected program name matches (`new Error('No programs found for the
selected options.')`). -/
inductive PlannerError where
  | notFound : String → PlannerError
deriving DecidableEq, Repr

/-- `[major, minor, concentration].filter(Boolean)`: absent and blank
entries are dropped, order kept. -/
def selectedPrograms (major minor concentration : Option String) : List String :=
  ([major, minor, concentration].filterMap id).filter (fun s => s ≠ "")

/-- `getRequirements(major, minor, concentration)` over the abstract data
layer: resolve program ids, fail when none resolve, otherwise return the
requirement rows of the resolved programs and the whole catalog. -/
def getRequirements (dl : DataLayer) (major minor concentration : Option String) :
    Except PlannerError RequirementsBundle :=
  let programs := selectedPrograms major minor concentration
  let ids := dl.findProgramIdsByName programs
  if ids.length = 0 then
    Except.error (PlannerError.notFound "No programs found for the selected options.")
  else
    Except.ok
      { requirements := dl.findRequirementsByProgramIds ids,
        catalog := dl.fetchFullCatalog }

/-! ### Run invariants -/

/-- Facts holding of the initial course pool throughout a run. -/
def Pool0OK (catalog : List Course) (completed : List String) (pool0 : List String) : Prop :=
  pool0.Nodup ∧ (∀ id ∈ pool0, (courseLookup catalog id).isSome) ∧
    ∀ id ∈ pool0, id ∉ completed

/-- What is known of one finished slot sitting at index `i` of the schedule
`sched`. -/
structure SlotOK (catalog : List Course) (completed : List String)
    (sched : List ScheduleSlot) (i : Nat) (slot : ScheduleSlot) : Prop where
  credits_le : slot.credits ≤ MAX_CREDITS
  credits_eq : slot.credits = (slot.courses.map ScheduledCourse.credits).sum
  courses_ok : ∀ sc ∈ slot.courses, ∃ c, courseLookup catalog sc.id = some c ∧
    sc = mkScheduled c ∧ slot.semester ∈ offeredList c ∧
    ∀ p ∈ prereqList c, p ∈ completedInCat catalog completed ++ schedIdsOf (sched.take i)

/-- The invariant of the term loop after `k` terms have been processed. -/
structure TermInv (catalog : List Course) (completed : List String) (pool0 : List String)
    (startYear : Int) (k : Nat) (state : PlanState) : Prop where
  labels : state.1.map (fun s => (s.year, s.semester)) = (termPairs startYear).take k
  pool_eq : state.2.1 = pool0.filter (fun id => decide (id ∉ schedIdsOf state.1))
  sats_nodup : (completedInCat catalog completed ++ schedIdsOf state.1).Nodup
  sched_sub : ∀ id ∈ schedIdsOf state.1, id ∈ pool0
  ctr_eq : ∀ c ∈ catalog, state.2.2 c.course_id =
    ((prereqList c).length : Int) -
      (countSat (completedInCat catalog completed ++ schedIdsOf state.1) c : Int)
  slots : ∀ i slot, state.1[i]? = some slot → SlotOK catalog completed state.1 i slot

/-- The hypothesis-free part of what is known of a finished slot. -/
structure SlotBase (catalog : List Course) (slot : ScheduleSlot) : Prop where
  credits_le : slot.credits ≤ MAX_CREDITS
  credits_eq : slot.credits = (slot.courses.map ScheduledCourse.credits).sum
  courses_ok : ∀ sc ∈ slot.courses, ∃ c, courseLookup catalog sc.id = some c ∧
    sc = mkScheduled c ∧ slot.semester ∈ offeredList c

/-- The part of the term-loop invariant that holds for every input,
without any duplication hypotheses on the catalog or the completed list. -/
structure BaseInv (catalog : List Course) (pool0 : List String) (startYear : Int)
    (k : Nat) (state : PlanState) : Prop where
  labels : state.1.map (fun s => (s.year, s.semester)) = (termPairs startYear).take k
  pool_eq : state.2.1 = pool0.filter (fun id => decide (id ∉ schedIdsOf state.1))
  sched_nodup : (schedIdsOf state.1).Nodup
  sched_sub : ∀ id ∈ schedIdsOf state.1, id ∈ pool0
  slots : ∀ slot ∈ state.1, SlotBase catalog slot

/-! ### Concrete inputs used to exercise the definitions -/

/-- A course with a single prerequisite `B`, offered in Fall. -/
def courseA2 : Course := ⟨"A", "Course A", 3, some ["B"], some ["Fall"]⟩

/-- A prerequisite-free course offered in Fall. -/
def courseB : Course := ⟨"B", "Course B", 3, some [], some ["Fall"]⟩

/-- A prerequisite-free course offered in Fall. -/
def courseC : Course := ⟨"C", "Course C", 3, some [], some ["Fall"]⟩

/-- A course with prerequisites `B` and `C`, offered in Fall. -/
def courseA3 : Course := ⟨"A", "Course A", 3, some ["B", "C"], some ["Fall"]⟩

/-- Catalog with `A` depending on `B`. -/
def exCatalogAB : List Course := [courseB, courseA2]

/-- Catalog with `A` depending on `B` and `C`. -/
def exCatalogABC : List Course := [courseB, courseC, courseA3]

/-- A requirement asking for course `A`. -/
def exReqA : Requirement := ⟨1, some ["A"]⟩

/-- A prerequisite-free course offered in Fall. -/
def courseX : Course := ⟨"X", "Intro", 3, some [], some ["Fall"]⟩

/-- A requirement asking for course `X`. -/
def exReqX : Requirement := ⟨1, some ["X"]⟩

/-- The plan produced for requirement `A` over the `B`/`C` catalog with the
duplicated completed list `["B", "B"]`: the duplicate decrements drive `A`'s
counter to zero, and `A` is scheduled in the first Fall although `C` was
never completed. -/
def exPlanABC : Plan :=
  ⟨[⟨2024, "Fall", [⟨"A", "Course A", 3⟩], 3⟩, ⟨2024, "Spring", [], 0⟩,
    ⟨2025, "Fall", [], 0⟩, ⟨2025, "Spring", [], 0⟩,
    ⟨2026, "Fall", [], 0⟩, ⟨2026, "Spring", [], 0⟩,
    ⟨2027, "Fall", [], 0⟩, ⟨2027, "Spring", [], 0⟩],
   [],
   "Plan generated successfully, with 0 requirements left unmet."⟩

/-- The plan produced for requirement `X` over the one-course catalog. -/
def exPlanX : Plan :=
  ⟨[⟨2024, "Fall", [⟨"X", "Intro", 3⟩], 3⟩, ⟨2024, "Spring", [], 0⟩,
    ⟨2025, "Fall", [], 0⟩, ⟨2025, "Spring", [], 0⟩,
    ⟨2026, "Fall", [], 0⟩, ⟨2026, "Spring", [], 0⟩,
    ⟨2027, "Fall", [], 0⟩, ⟨2027, "Spring", [], 0⟩],
   [],
   "Plan generated successfully, with 0 requirements left unmet."⟩

/-- A one-program data layer resolving only the name `CS`. -/
def exDataLayer : DataLayer :=
  ⟨fun names => if names = [("CS" : String)] then [1] else [],
   fun _ => [exReqX], [courseX]⟩

/-! ### Counter lemmas -/

theorem setCounter_apply (st : Counter) (k : String) (v : Int) (x : String) :
    setCounter st k v x = if x = k then v else st x := rfl

theorem decrementDependents_apply (entries : List Course) (st : Counter) (sid x : String) :
    decrementDependents entries st sid x = st x - (countDep entries sid x : Int) := by
  induction entries generalizing st with
  | nil => simp [decrementDependents, countDep]
  | cons e es ih =>
    have hstep : decrementDependents (e :: es) st sid =
        decrementDependents es
          (if sid ∈ prereqList e then setCounter st e.course_id (st e.course_id - 1) else st)
          sid := rfl
    rw [hstep, ih]
    by_cases h : sid ∈ prereqList e
    · by_cases hx : e.course_id = x
      · simp [countDep, List.countP_cons, h, hx, setCounter]
        ring
      · have hx2 : ¬ x = e.course_id := fun hh => hx hh.symm
        simp [countDep, List.countP_cons, h, hx, hx2, setCounter]
    · simp [countDep, List.countP_cons, h]

theorem countDep_zero_of_not_mem (entries : List Course) (sid x : String)
    (hx : x ∉ entries.map Course.course_id) : countDep entries sid x = 0 := by
  rw [countDep, List.countP_eq_zero]
  intro e he
  simp only [Bool.and_eq_true, beq_iff_eq, decide_eq_true_eq]
  intro hcontra
  exact hx (hcontra.1 ▸ List.mem_map_of_mem Course.course_id he)

theorem countDep_eq (catalog : List Course) (hcat : (catalog.map Course.course_id).Nodup)
    (c : Course) (hc : c ∈ catalog) (sid : String) :
    countDep catalog sid c.course_id = if sid ∈ prereqList c then 1 else 0 := by
  induction catalog with
  | nil => cases hc
  | cons d ds ih =>
    rw [List.map_cons, List.nodup_cons] at hcat
    rcases List.mem_cons.mp hc with hcd | hcds
    · subst hcd
      rw [countDep, List.countP_cons]
      have hz : countDep ds sid c.course_id = 0 := countDep_zero_of_not_mem ds sid _ hcat.1
      rw [countDep] at hz
      rw [hz]
      by_cases h : sid ∈ prereqList c <;> simp [h]
    · have hne : d.course_id ≠ c.course_id := fun hcontra =>
        hcat.1 (hcontra ▸ List.mem_map_of_mem Course.course_id hcds)
      rw [countDep, List.countP_cons]
      have := ih hcat.2 hcds
      rw [countDep] at this
      simp [this, hne]

theorem countDep_take_le (entries : List Course) (sid x : String) (j : Nat) :
    countDep (entries.take j) sid x ≤ countDep entries sid x :=
  List.Sublist.countP_le _ (List.take_sublist j entries)

theorem initFold_not_mem (catalog : List Course) (st : Counter) (x : String)
    (hx : x ∉ catalog.map Course.course_id) :
    catalog.foldl (fun st c => setCounter st c.course_id ((prereqList c).length : Int)) st x
      = st x := by
  induction catalog generalizing st with
  | nil => rfl
  | cons d ds ih =>
    rw [List.map_cons] at hx
    simp only [List.mem_cons, not_or] at hx
    rw [List.foldl_cons, ih _ hx.2]
    simp [setCounter, hx.1]

theorem initFold_apply (catalog : List Course)
    (hcat : (catalog.map Course.course_id).Nodup) (c : Course) (hc : c ∈ catalog)
    (st : Counter) :
    catalog.foldl (fun st c => setCounter st c.course_id ((prereqList c).length : Int)) st
        c.course_id = ((prereqList c).length : Int) := by
  induction catalog generalizing st with
  | nil => cases hc
  | cons d ds ih =>
    rw [List.map_cons, List.nodup_cons] at hcat
    rcases List.mem_cons.mp hc with hcd | hcds
    · subst hcd
      rw [List.foldl_cons, initFold_not_mem ds _ _ hcat.1]
      simp [setCounter]
    · rw [List.foldl_cons]
      exact ih hcat.2 hcds _

theorem initializePrereqStatus_apply (catalog : List Course)
    (hcat : (catalog.map Course.course_id).Nodup) (c : Course) (hc : c ∈ catalog) :
    initializePrereqStatus catalog c.course_id = ((prereqList c).length : Int) :=
  initFold_apply catalog hcat c hc _

theorem applySats_cons (catalog : List Course) (s : String) (sats : List String)
    (st : Counter) :
    applySats catalog (s :: sats) st = applySats catalog sats (decrementDependents catalog st s) :=
  rfl

theorem countSat_cons (s : String) (sats : List String) (c : Course) :
    countSat (s :: sats) c = (if s ∈ prereqList c then 1 else 0) + countSat sats c := by
  rw [countSat, countSat, List.filter_cons]
  by_cases h : s ∈ prereqList c
  · simp [h, Nat.add_comm]
  · simp [h]

theorem countSat_append (s t : List String) (c : Course) :
    countSat (s ++ t) c = countSat s c + countSat t c := by
  rw [countSat, countSat, countSat, List.filter_append, List.length_append]

theorem applySats_apply (catalog : List Course)
    (hcat : (catalog.map Course.course_id).Nodup) (c : Course) (hc : c ∈ catalog)
    (sats : List String) (st : Counter) :
    applySats catalog sats st c.course_id = st c.course_id - (countSat sats c : Int) := by
  induction sats generalizing st with
  | nil => simp [applySats, countSat]
  | cons s ss ih =>
    rw [applySats_cons, ih, decrementDependents_apply, countDep_eq catalog hcat c hc,
      countSat_cons]
    push_cast
    by_cases h : s ∈ prereqList c
    · simp [h]
      ring
    · simp [h]

theorem presatisfy_eq_applySats (catalog : List Course) (completed : List String)
    (st : Counter) :
    presatisfy catalog completed st = applySats catalog (completedInCat catalog completed) st := by
  induction completed generalizing st with
  | nil => rfl
  | cons cid rest ih =>
    rw [presatisfy, List.foldl_cons, completedInCat, List.filter_cons]
    by_cases h : (courseLookup catalog cid).isSome
    · rw [if_pos h, applySats_cons]
      have hstep : presatisfyStep catalog st cid = decrementDependents catalog st cid := by
        rw [presatisfyStep, if_pos h]
      rw [hstep]
      exact ih _
    · rw [if_neg h]
      have hstep : presatisfyStep catalog st cid = st := by
        rw [presatisfyStep, if_neg h]
      rw [hstep]
      exact ih _

theorem countSat_le_of_nodup (sats : List String) (c : Course) (h : sats.Nodup) :
    countSat sats c ≤ (prereqList c).length := by
  have hsub : (sats.filter (fun s => decide (s ∈ prereqList c))) ⊆ prereqList c := by
    intro s hs
    exact of_decide_eq_true (List.mem_filter.mp hs).2
  exact ((h.filter _).subperm hsub).length_le

theorem prereq_mem_of_countSat_eq (sats : List String) (c : Course) (h : sats.Nodup)
    (he : countSat sats c = (prereqList c).length) : ∀ p ∈ prereqList c, p ∈ sats := by
  intro p hp
  by_contra hnp
  have hsub : (sats.filter (fun s => decide (s ∈ prereqList c))) ⊆
      (prereqList c).dedup.erase p := by
    intro s hs
    have hmem : s ∈ prereqList c := of_decide_eq_true (List.mem_filter.mp hs).2
    have hne : s ≠ p := fun hsp => hnp (hsp ▸ (List.mem_filter.mp hs).1)
    exact (List.mem_erase_of_ne hne).mpr (List.mem_dedup.mpr hmem)
  have hlen : countSat sats c ≤ ((prereqList c).dedup.erase p).length :=
    (((h.filter _).subperm hsub)).length_le
  have herase : ((prereqList c).dedup.erase p).length = (prereqList c).dedup.length - 1 :=
    List.length_erase_of_mem (List.mem_dedup.mpr hp)
  have hdedup : (prereqList c).dedup.length ≤ (prereqList c).length :=
    (List.dedup_sublist _).length_le
  have hpos : 0 < (prereqList c).length := List.length_pos.mpr (List.ne_nil_of_mem hp)
  omega

/-! ### Selection lemmas -/

theorem selFold_fst_sublist (l : List Course) :
    ∀ acc : List Course × Int, ∃ t, (l.foldl selStep acc).1 = acc.1 ++ t ∧ t.Sublist l := by
  induction l with
  | nil => exact fun acc => ⟨[], by simp⟩
  | cons c cs ih =>
    intro acc
    rw [List.foldl_cons]
    by_cases h : acc.2 + c.credits ≤ MAX_CREDITS
    · obtain ⟨t, ht, hsub⟩ := ih (selStep acc c)
      refine ⟨c :: t, ?_, List.Sublist.cons₂ c hsub⟩
      rw [ht, selStep, if_pos h]
      simp
    · obtain ⟨t, ht, hsub⟩ := ih (selStep acc c)
      refine ⟨t, ?_, List.Sublist.cons c hsub⟩
      rw [ht, selStep, if_neg h]

theorem selectFold_sublist (l : List Course) : (selectFold l).1.Sublist l := by
  obtain ⟨t, ht, hsub⟩ := selFold_fst_sublist l ([], 0)
  rw [selectFold, ht]
  simpa using hsub

theorem selFold_credits_le (l : List Course) :
    ∀ acc : List Course × Int, acc.2 ≤ MAX_CREDITS → (l.foldl selStep acc).2 ≤ MAX_CREDITS := by
  induction l with
  | nil => exact fun acc h => h
  | cons c cs ih =>
    intro acc h
    rw [List.foldl_cons]
    by_cases hfit : acc.2 + c.credits ≤ MAX_CREDITS
    · exact ih _ (by rw [selStep, if_pos hfit]; exact hfit)
    · exact ih _ (by rw [selStep, if_neg hfit]; exact h)

theorem selectFold_credits_le (l : List Course) : (selectFold l).2 ≤ MAX_CREDITS :=
  selFold_credits_le l ([], 0) (by rw [MAX_CREDITS]; omega)

theorem selFold_credits_eq (l : List Course) :
    ∀ acc : List Course × Int, acc.2 = (acc.1.map Course.credits).sum →
      (l.foldl selStep acc).2 = ((l.foldl selStep acc).1.map Course.credits).sum := by
  induction l with
  | nil => exact fun acc h => h
  | cons c cs ih =>
    intro acc h
    rw [List.foldl_cons]
    by_cases hfit : acc.2 + c.credits ≤ MAX_CREDITS
    · refine ih _ ?_
      rw [selStep, if_pos hfit]
      simp [h]
    · refine ih _ ?_
      rw [selStep, if_neg hfit]
      exact h

theorem selectFold_credits_eq (l : List Course) :
    (selectFold l).2 = ((selectFold l).1.map Course.credits).sum :=
  selFold_credits_eq l ([], 0) (by simp)

theorem selectFold_nil : selectFold [] = ([], 0) := rfl

theorem selectFold_append (l : List Course) (c : Course) :
    selectFold (l ++ [c]) =
      if (selectFold l).2 + c.credits ≤ MAX_CREDITS
      then ((selectFold l).1 ++ [c], (selectFold l).2 + c.credits)
      else selectFold l := by
  rw [selectFold, List.foldl_append]
  rfl

/-! ### Lookup lemmas -/

theorem courseLookup_eq_id (catalog : List Course) (id : String) (c : Course)
    (h : courseLookup catalog id = some c) : c.course_id = id := by
  have := List.find?_some h
  exact eq_of_beq this

theorem courseLookup_mem (catalog : List Course) (id : String) (c : Course)
    (h : courseLookup catalog id = some c) : c ∈ catalog :=
  List.mem_reverse.mp (List.mem_of_find?_eq_some h)

theorem mapM_lookup_some (catalog : List Course) :
    ∀ pool : List String, (∀ id ∈ pool, (courseLookup catalog id).isSome) →
      ∃ courses, pool.mapM (courseLookup catalog) = some courses ∧
        List.Forall₂ (fun id c => courseLookup catalog id = some c) pool courses := by
  intro pool
  induction pool with
  | nil => exact fun _ => ⟨[], rfl, List.Forall₂.nil⟩
  | cons id rest ih =>
    intro h
    obtain ⟨c, hc⟩ := Option.isSome_iff_exists.mp (h id (List.mem_cons_self id rest))
    obtain ⟨courses, hcs, hall⟩ := ih (fun i hi => h i (List.mem_cons_of_mem _ hi))
    refine ⟨c :: courses, ?_, List.Forall₂.cons hc hall⟩
    rw [List.mapM_cons, hc, hcs]
    rfl

theorem mapM_lookup_ids (catalog : List Course) (pool : List String) (courses : List Course)
    (hall : List.Forall₂ (fun id c => courseLookup catalog id = some c) pool courses) :
    courses.map Course.course_id = pool := by
  induction hall with
  | nil => rfl
  | cons h _ ih =>
    rw [List.map_cons, ih, courseLookup_eq_id _ _ _ h]

theorem mapM_lookup_mem (catalog : List Course) (pool : List String) (courses : List Course)
    (hall : List.Forall₂ (fun id c => courseLookup catalog id = some c) pool courses) :
    ∀ c ∈ courses, c ∈ catalog ∧ courseLookup catalog c.course_id = some c := by
  induction hall with
  | nil => exact fun c hc => absurd hc (List.not_mem_nil c)
  | cons h _ ih =>
    intro c hc
    rcases List.mem_cons.mp hc with rfl | hcs
    · exact ⟨courseLookup_mem _ _ _ h, (courseLookup_eq_id _ _ _ h).symm ▸ h⟩
    · exact ih c hcs

/-! ### Eligible-list lemmas -/

theorem eligList_perm (sem : String) (ctr : Counter) (courses : List Course) :
    (eligList sem ctr courses).Perm
      (courses.filter (fun c => decide (sem ∈ offeredList c) && (ctr c.course_id == 0))) :=
  List.perm_insertionSort lenLE _

theorem eligList_sorted (sem : String) (ctr : Counter) (courses : List Course) :
    (eligList sem ctr courses).Pairwise lenLE :=
  List.sorted_insertionSort lenLE _

theorem mem_eligList (sem : String) (ctr : Counter) (courses : List Course) (c : Course) :
    c ∈ eligList sem ctr courses ↔
      c ∈ courses ∧ sem ∈ offeredList c ∧ ctr c.course_id = 0 := by
  rw [(eligList_perm sem ctr courses).mem_iff, List.mem_filter]
  simp only [Bool.and_eq_true, decide_eq_true_eq, beq_iff_eq]

/-! ### State-update lemmas -/

theorem updateState_fst (catalog : List Course) :
    ∀ (sel pool : List String) (ctr : Counter),
      (updateState catalog (pool, ctr) sel).1 =
        pool.filter (fun id => decide (id ∉ sel)) := by
  intro sel
  induction sel with
  | nil => intro pool ctr; simp [updateState]
  | cons s rest ih =>
    intro pool ctr
    have hstep : updateState catalog (pool, ctr) (s :: rest) =
        updateState catalog
          (pool.filter (fun id => id ≠ s), decrementDependents catalog ctr s) rest := rfl
    rw [hstep, ih, List.filter_filter]
    refine List.filter_congr ?_
    intro id _
    by_cases h1 : id ∈ rest
    · simp [h1]
    · by_cases h2 : id = s <;> simp [h1, h2]

theorem updateState_snd (catalog : List Course) :
    ∀ (sel pool : List String) (ctr : Counter),
      (updateState catalog (pool, ctr) sel).2 = applySats catalog sel ctr := by
  intro sel
  induction sel with
  | nil => intro pool ctr; rfl
  | cons s rest ih =>
    intro pool ctr
    exact ih _ _

/-! ### Pool-resolution lemmas -/

theorem resolveRequired_invariant (catalog : List Course) :
    ∀ (requirements : List Requirement) (acc : List String),
      acc.Nodup → (∀ id ∈ acc, (courseLookup catalog id).isSome) →
      ((requirements.foldl
          (fun acc req =>
            match req.options_pool with
            | some pool =>
                pool.foldl
                  (fun acc2 id =>
                    if (courseLookup catalog id).isSome ∧ id ∉ acc2 then acc2 ++ [id]
                    else acc2)
                  acc
            | none => acc)
          acc).Nodup ∧
        ∀ id ∈ (requirements.foldl
          (fun acc req =>
            match req.options_pool with
            | some pool =>
                pool.foldl
                  (fun acc2 id =>
                    if (courseLookup catalog id).isSome ∧ id ∉ acc2 then acc2 ++ [id]
                    else acc2)
                  acc
            | none => acc)
          acc), (courseLookup catalog id).isSome) := by
  have inner : ∀ (pool : List String) (acc : List String),
      acc.Nodup → (∀ id ∈ acc, (courseLookup catalog id).isSome) →
      ((pool.foldl
          (fun acc2 id =>
            if (courseLookup catalog id).isSome ∧ id ∉ acc2 then acc2 ++ [id] else acc2)
          acc).Nodup ∧
        ∀ id ∈ (pool.foldl
          (fun acc2 id =>
            if (courseLookup catalog id).isSome ∧ id ∉ acc2 then acc2 ++ [id] else acc2)
          acc), (courseLookup catalog id).isSome) := by
    intro pool
    induction pool with
    | nil => exact fun acc h1 h2 => ⟨h1, h2⟩
    | cons id rest ih =>
      intro acc h1 h2
      rw [List.foldl_cons]
      by_cases h : (courseLookup catalog id).isSome ∧ id ∉ acc
      · rw [if_pos h]
        refine ih _ ?_ ?_
        · rw [← List.concat_eq_append]
          exact h1.concat h.2
        · intro i hi
          rcases List.mem_append.mp hi with hia | hib
          · exact h2 i hia
          · rw [List.mem_singleton] at hib
            exact hib ▸ h.1
      · rw [if_neg h]
        exact ih _ h1 h2
  intro requirements
  induction requirements with
  | nil => exact fun acc h1 h2 => ⟨h1, h2⟩
  | cons req rest ih =>
    intro acc h1 h2
    rw [List.foldl_cons]
    cases hop : req.options_pool with
    | none => exact ih _ h1 h2
    | some pool =>
      obtain ⟨ha, hb⟩ := inner pool acc h1 h2
      exact ih _ ha hb

theorem resolveRequired_nodup (requirements : List Requirement) (catalog : List Course) :
    (resolveRequired requirements catalog).Nodup :=
  (resolveRequired_invariant catalog requirements [] List.nodup_nil (by intro id h; cases h)).1

theorem resolveRequired_isSome (requirements : List Requirement) (catalog : List Course) :
    ∀ id ∈ resolveRequired requirements catalog, (courseLookup catalog id).isSome :=
  (resolveRequired_invariant catalog requirements [] List.nodup_nil (by intro id h; cases h)).2

theorem coursePool0_ok (requirements : List Requirement) (catalog : List Course)
    (completed : List String) :
    Pool0OK catalog completed (coursePool0 requirements catalog completed) := by
  refine ⟨(resolveRequired_nodup requirements catalog).filter _, ?_, ?_⟩
  · intro id hid
    exact resolveRequired_isSome requirements catalog id (List.mem_of_mem_filter hid)
  · intro id hid
    exact of_decide_eq_true (List.mem_filter.mp hid).2

/-! ### Term-step invariant preservation -/

theorem schedIdsOf_append (sched : List ScheduleSlot) (slot : ScheduleSlot) :
    schedIdsOf (sched ++ [slot]) =
      schedIdsOf sched ++ slot.courses.map ScheduledCourse.id := by
  rw [schedIdsOf, schedIdsOf, List.map_append, List.flatten_append]
  simp

theorem filter_notMem_append (pool A B : List String) :
    (pool.filter (fun id => decide (id ∉ A))).filter (fun id => decide (id ∉ B)) =
      pool.filter (fun id => decide (id ∉ A ++ B)) := by
  rw [List.filter_filter]
  refine List.filter_congr ?_
  intro id _
  by_cases h1 : id ∈ A
  · simp [h1]
  · by_cases h2 : id ∈ B
    · simp [h1, h2]
    · simp [h1, h2]

theorem map_mkScheduled_id (l : List Course) :
    (l.map mkScheduled).map ScheduledCourse.id = l.map Course.course_id := by
  rw [List.map_map]
  rfl

theorem map_mkScheduled_credits (l : List Course) :
    (l.map mkScheduled).map ScheduledCourse.credits = l.map Course.credits := by
  rw [List.map_map]
  rfl

theorem termNext_inv (catalog : List Course) (completed pool0 : List String)
    (startYear : Int) (k : Nat) (sched : List ScheduleSlot) (pool : List String)
    (ctr : Counter) (pair : Int × String) (courses : List Course)
    (hcat : (catalog.map Course.course_id).Nodup)
    (hpool0 : Pool0OK catalog completed pool0)
    (hk : (termPairs startYear)[k]? = some pair)
    (hall : List.Forall₂ (fun id c => courseLookup catalog id = some c) pool courses)
    (hInv : TermInv catalog completed pool0 startYear k (sched, pool, ctr)) :
    TermInv catalog completed pool0 startYear (k + 1)
      (termNext catalog sched pool ctr pair courses) := by
  have hpool_eq0 : pool = pool0.filter (fun id => decide (id ∉ schedIdsOf sched)) :=
    hInv.pool_eq
  have hpool_sub : ∀ id ∈ pool, id ∈ pool0 := by
    intro id hid
    rw [hpool_eq0] at hid
    exact List.mem_of_mem_filter hid
  have hpool_nodup : pool.Nodup := by
    rw [hpool_eq0]
    exact hpool0.1.filter _
  have hpool_nmem : ∀ id ∈ pool, id ∉ schedIdsOf sched := by
    intro id hid
    rw [hpool_eq0] at hid
    exact of_decide_eq_true (List.mem_filter.mp hid).2
  have hpool_ncomp : ∀ id ∈ pool, id ∉ completed :=
    fun id hid => hpool0.2.2 id (hpool_sub id hid)
  have hids : courses.map Course.course_id = pool := mapM_lookup_ids catalog pool courses hall
  have hcourses_facts : ∀ c ∈ courses,
      c ∈ catalog ∧ courseLookup catalog c.course_id = some c :=
    mapM_lookup_mem catalog pool courses hall
  have hcourses_ids_nodup : (courses.map Course.course_id).Nodup := by
    rw [hids]
    exact hpool_nodup
  have hpicked_sub_elig : (selectFold (eligList pair.2 ctr courses)).1 ⊆
      eligList pair.2 ctr courses :=
    (selectFold_sublist _).subset
  have hpicked_mem : ∀ c ∈ (selectFold (eligList pair.2 ctr courses)).1,
      c ∈ courses ∧ pair.2 ∈ offeredList c ∧ ctr c.course_id = 0 :=
    fun c hc => (mem_eligList _ _ _ c).mp (hpicked_sub_elig hc)
  have helig_ids_nodup : ((eligList pair.2 ctr courses).map Course.course_id).Nodup := by
    refine ((eligList_perm pair.2 ctr courses).map Course.course_id).nodup_iff.mpr ?_
    exact List.Nodup.sublist ((List.filter_sublist courses).map Course.course_id)
      hcourses_ids_nodup
  have hselIds_nodup :
      ((selectFold (eligList pair.2 ctr courses)).1.map Course.course_id).Nodup :=
    List.Nodup.sublist ((selectFold_sublist _).map Course.course_id) helig_ids_nodup
  have hselIds_sub_pool :
      ∀ id ∈ (selectFold (eligList pair.2 ctr courses)).1.map Course.course_id,
        id ∈ pool := by
    intro id hid
    obtain ⟨c, hc, rfl⟩ := List.mem_map.mp hid
    rw [← hids]
    exact List.mem_map_of_mem _ (hpicked_mem c hc).1
  have hctr_eqf : ∀ c ∈ catalog, ctr c.course_id =
      ((prereqList c).length : Int) -
        (countSat (completedInCat catalog completed ++ schedIdsOf sched) c : Int) :=
    hInv.ctr_eq
  have hlabels : sched.map (fun s => (s.year, s.semester)) =
      (termPairs startYear).take k := hInv.labels
  have hslots : ∀ i slot, sched[i]? = some slot →
      SlotOK catalog completed sched i slot := hInv.slots
  have hsats_nodup : (completedInCat catalog completed ++ schedIdsOf sched).Nodup :=
    hInv.sats_nodup
  have hsched2 : schedIdsOf (sched ++
      [{ year := pair.1, semester := pair.2,
         courses := (selectFold (eligList pair.2 ctr courses)).1.map mkScheduled,
         credits := (selectFold (eligList pair.2 ctr courses)).2 }]) =
      schedIdsOf sched ++ (selectFold (eligList pair.2 ctr courses)).1.map Course.course_id := by
    rw [schedIdsOf_append]
    show schedIdsOf sched ++
        ((selectFold (eligList pair.2 ctr courses)).1.map mkScheduled).map ScheduledCourse.id
      = _
    rw [map_mkScheduled_id]
  refine ⟨?_, ?_, ?_, ?_, ?_, ?_⟩
  · show (sched ++ [_]).map _ = _
    rw [List.map_append, hlabels, List.take_succ, hk]
    rfl
  · show (updateState catalog (pool, ctr)
        ((selectFold (eligList pair.2 ctr courses)).1.map Course.course_id)).1 =
      pool0.filter (fun id => decide (id ∉ schedIdsOf (sched ++
        [{ year := pair.1, semester := pair.2,
           courses := (selectFold (eligList pair.2 ctr courses)).1.map mkScheduled,
           credits := (selectFold (eligList pair.2 ctr courses)).2 }])))
    rw [updateState_fst, hsched2, hpool_eq0, filter_notMem_append]
  · show (completedInCat catalog completed ++ schedIdsOf (sched ++ [_])).Nodup
    rw [hsched2, ← List.append_assoc, List.nodup_append]
    refine ⟨hsats_nodup, hselIds_nodup, ?_⟩
    intro a ha hasel
    have hapool : a ∈ pool := hselIds_sub_pool a hasel
    rcases List.mem_append.mp ha with hcic | hsch
    · exact hpool_ncomp a hapool (List.mem_of_mem_filter hcic)
    · exact hpool_nmem a hapool hsch
  · show ∀ id ∈ schedIdsOf (sched ++ [_]), id ∈ pool0
    rw [hsched2]
    intro id hid
    rcases List.mem_append.mp hid with h1 | h2
    · exact hInv.sched_sub id h1
    · exact hpool_sub id (hselIds_sub_pool id h2)
  · intro c hc
    show (updateState catalog (pool, ctr)
        ((selectFold (eligList pair.2 ctr courses)).1.map Course.course_id)).2 c.course_id =
      ((prereqList c).length : Int) -
        (countSat (completedInCat catalog completed ++ schedIdsOf (sched ++
          [{ year := pair.1, semester := pair.2,
             courses := (selectFold (eligList pair.2 ctr courses)).1.map mkScheduled,
             credits := (selectFold (eligList pair.2 ctr courses)).2 }])) c : Int)
    rw [updateState_snd, applySats_apply catalog hcat c hc, hctr_eqf c hc, hsched2,
      ← List.append_assoc,
      countSat_append (completedInCat catalog completed ++ schedIdsOf sched)
        ((selectFold (eligList pair.2 ctr courses)).1.map Course.course_id) c]
    push_cast
    ring
  · intro i slot hi
    replace hi : (sched ++
        [{ year := pair.1, semester := pair.2,
           courses := (selectFold (eligList pair.2 ctr courses)).1.map mkScheduled,
           credits := (selectFold (eligList pair.2 ctr courses)).2 }])[i]? = some slot := hi
    by_cases hlt : i < sched.length
    · have hi2 : sched[i]? = some slot := by
        rw [List.getElem?_append, if_pos hlt] at hi
        exact hi
      obtain ⟨h1, h2, h3⟩ := hslots i slot hi2
      refine ⟨h1, h2, ?_⟩
      intro sc hsc
      obtain ⟨c, hcl, hceq, hsem, hpre⟩ := h3 sc hsc
      refine ⟨c, hcl, hceq, hsem, ?_⟩
      show ∀ p ∈ prereqList c,
        p ∈ completedInCat catalog completed ++ schedIdsOf ((sched ++
          [({ year := pair.1, semester := pair.2,
              courses := (selectFold (eligList pair.2 ctr courses)).1.map mkScheduled,
              credits := (selectFold (eligList pair.2 ctr courses)).2 } : ScheduleSlot)]).take i)
      rw [List.take_append_of_le_length (le_of_lt hlt)]
      exact hpre
    · have hi_eq : i = sched.length := by
        have hbound := (List.getElem?_eq_some_iff.mp hi).1
        rw [List.length_append] at hbound
        simp only [List.length_cons, List.length_nil] at hbound
        omega
      subst hi_eq
      rw [List.getElem?_concat_length] at hi
      injection hi with hi
      subst hi
      refine ⟨selectFold_credits_le _, ?_, ?_⟩
      · show (selectFold (eligList pair.2 ctr courses)).2 =
          (((selectFold (eligList pair.2 ctr courses)).1.map mkScheduled).map
            ScheduledCourse.credits).sum
        rw [map_mkScheduled_credits]
        exact selectFold_credits_eq _
      · intro sc hsc
        replace hsc : sc ∈ (selectFold (eligList pair.2 ctr courses)).1.map mkScheduled := hsc
        obtain ⟨c, hcpick, rfl⟩ := List.mem_map.mp hsc
        obtain ⟨hccourses, hsem, hctr0⟩ := hpicked_mem c hcpick
        obtain ⟨hccat, hclook⟩ := hcourses_facts c hccourses
        refine ⟨c, hclook, rfl, hsem, ?_⟩
        show ∀ p ∈ prereqList c,
          p ∈ completedInCat catalog completed ++
            schedIdsOf ((sched ++
              [({ year := pair.1, semester := pair.2,
                  courses := (selectFold (eligList pair.2 ctr courses)).1.map mkScheduled,
                  credits := (selectFold (eligList pair.2 ctr courses)).2 } : ScheduleSlot)]).take
              sched.length)
        rw [List.take_append_of_le_length (le_refl _), List.take_length]
        have hctr_c := hctr_eqf c hccat
        rw [hctr0] at hctr_c
        have hcnt : countSat (completedInCat catalog completed ++ schedIdsOf sched) c =
            (prereqList c).length := by omega
        exact prereq_mem_of_countSat_eq _ c hsats_nodup hcnt

theorem termNext_base (catalog : List Course) (pool0 : List String)
    (startYear : Int) (k : Nat) (sched : List ScheduleSlot) (pool : List String)
    (ctr : Counter) (pair : Int × String) (courses : List Course)
    (hpool0_nodup : pool0.Nodup)
    (hk : (termPairs startYear)[k]? = some pair)
    (hall : List.Forall₂ (fun id c => courseLookup catalog id = some c) pool courses)
    (hInv : BaseInv catalog pool0 startYear k (sched, pool, ctr)) :
    BaseInv catalog pool0 startYear (k + 1)
      (termNext catalog sched pool ctr pair courses) := by
  have hpool_eq0 : pool = pool0.filter (fun id => decide (id ∉ schedIdsOf sched)) :=
    hInv.pool_eq
  have hpool_sub : ∀ id ∈ pool, id ∈ pool0 := by
    intro id hid
    rw [hpool_eq0] at hid
    exact List.mem_of_mem_filter hid
  have hpool_nodup : pool.Nodup := by
    rw [hpool_eq0]
    exact hpool0_nodup.filter _
  have hpool_nmem : ∀ id ∈ pool, id ∉ schedIdsOf sched := by
    intro id hid
    rw [hpool_eq0] at hid
    exact of_decide_eq_true (List.mem_filter.mp hid).2
  have hids : courses.map Course.course_id = pool := mapM_lookup_ids catalog pool courses hall
  have hcourses_facts : ∀ c ∈ courses,
      c ∈ catalog ∧ courseLookup catalog c.course_id = some c :=
    mapM_lookup_mem catalog pool courses hall
  have hcourses_ids_nodup : (courses.map Course.course_id).Nodup := by
    rw [hids]
    exact hpool_nodup
  have hpicked_mem : ∀ c ∈ (selectFold (eligList pair.2 ctr courses)).1,
      c ∈ courses ∧ pair.2 ∈ offeredList c ∧ ctr c.course_id = 0 :=
    fun c hc => (mem_eligList _ _ _ c).mp ((selectFold_sublist _).subset hc)
  have helig_ids_nodup : ((eligList pair.2 ctr courses).map Course.course_id).Nodup := by
    refine ((eligList_perm pair.2 ctr courses).map Course.course_id).nodup_iff.mpr ?_
    exact List.Nodup.sublist ((List.filter_sublist courses).map Course.course_id)
      hcourses_ids_nodup
  have hselIds_nodup :
      ((selectFold (eligList pair.2 ctr courses)).1.map Course.course_id).Nodup :=
    List.Nodup.sublist ((selectFold_sublist _).map Course.course_id) helig_ids_nodup
  have hselIds_sub_pool :
      ∀ id ∈ (selectFold (eligList pair.2 ctr courses)).1.map Course.course_id,
        id ∈ pool := by
    intro id hid
    obtain ⟨c, hc, rfl⟩ := List.mem_map.mp hid
    rw [← hids]
    exact List.mem_map_of_mem _ (hpicked_mem c hc).1
  have hlabels : sched.map (fun s => (s.year, s.semester)) =
      (termPairs startYear).take k := hInv.labels
  have hsched_nodup : (schedIdsOf sched).Nodup := hInv.sched_nodup
  have hslots : ∀ slot ∈ sched, SlotBase catalog slot := hInv.slots
  have hsched2 : schedIdsOf (sched ++
      [{ year := pair.1, semester := pair.2,
         courses := (selectFold (eligList pair.2 ctr courses)).1.map mkScheduled,
         credits := (selectFold (eligList pair.2 ctr courses)).2 }]) =
      schedIdsOf sched ++ (selectFold (eligList pair.2 ctr courses)).1.map Course.course_id := by
    rw [schedIdsOf_append]
    show schedIdsOf sched ++
        ((selectFold (eligList pair.2 ctr courses)).1.map mkScheduled).map ScheduledCourse.id
      = _
    rw [map_mkScheduled_id]
  refine ⟨?_, ?_, ?_, ?_, ?_⟩
  · show (sched ++ [_]).map _ = _
    rw [List.map_append, hlabels, List.take_succ, hk]
    rfl
  · show (updateState catalog (pool, ctr)
        ((selectFold (eligList pair.2 ctr courses)).1.map Course.course_id)).1 =
      pool0.filter (fun id => decide (id ∉ schedIdsOf (sched ++
        [{ year := pair.1, semester := pair.2,
           courses := (selectFold (eligList pair.2 ctr courses)).1.map mkScheduled,
           credits := (selectFold (eligList pair.2 ctr courses)).2 }])))
    rw [updateState_fst, hsched2, hpool_eq0, filter_notMem_append]
  · show (schedIdsOf (sched ++ [_])).Nodup
    rw [hsched2, List.nodup_append]
    refine ⟨hsched_nodup, hselIds_nodup, ?_⟩
    intro a ha hasel
    exact hpool_nmem a (hselIds_sub_pool a hasel) ha
  · show ∀ id ∈ schedIdsOf (sched ++ [_]), id ∈ pool0
    rw [hsched2]
    intro id hid
    rcases List.mem_append.mp hid with h1 | h2
    · exact hInv.sched_sub id h1
    · exact hpool_sub id (hselIds_sub_pool id h2)
  · intro slot hslot
    replace hslot : slot ∈ sched ++
        [{ year := pair.1, semester := pair.2,
           courses := (selectFold (eligList pair.2 ctr courses)).1.map mkScheduled,
           credits := (selectFold (eligList pair.2 ctr courses)).2 }] := hslot
    rcases List.mem_append.mp hslot with hold | hnew
    · exact hslots slot hold
    · rw [List.mem_singleton] at hnew
      subst hnew
      refine ⟨selectFold_credits_le _, ?_, ?_⟩
      · show (selectFold (eligList pair.2 ctr courses)).2 =
          (((selectFold (eligList pair.2 ctr courses)).1.map mkScheduled).map
            ScheduledCourse.credits).sum
        rw [map_mkScheduled_credits]
        exact selectFold_credits_eq _
      · intro sc hsc
        replace hsc : sc ∈ (selectFold (eligList pair.2 ctr courses)).1.map mkScheduled := hsc
        obtain ⟨c, hcpick, rfl⟩ := List.mem_map.mp hsc
        obtain ⟨hccourses, hsem, _⟩ := hpicked_mem c hcpick
        exact ⟨c, (hcourses_facts c hccourses).2, rfl, hsem⟩

theorem initState_base (requirements : List Requirement) (catalog : List Course)
    (completed : List String) (startYear : Int) :
    BaseInv catalog (coursePool0 requirements catalog completed) startYear 0
      (initState requirements catalog completed) := by
  refine ⟨rfl, ?_, ?_, ?_, ?_⟩
  · show coursePool0 requirements catalog completed =
      (coursePool0 requirements catalog completed).filter
        (fun id => decide (id ∉ schedIdsOf []))
    have hfilter : ∀ l : List String,
        l.filter (fun id => decide (id ∉ schedIdsOf ([] : List ScheduleSlot))) = l := by
      intro l
      refine List.filter_eq_self.mpr ?_
      intro a _
      simp [schedIdsOf]
    exact (hfilter _).symm
  · show (schedIdsOf ([] : List ScheduleSlot)).Nodup
    simp [schedIdsOf]
  · intro id hid
    replace hid : id ∈ schedIdsOf ([] : List ScheduleSlot) := hid
    simp [schedIdsOf] at hid
  · intro slot hslot
    replace hslot : slot ∈ ([] : List ScheduleSlot) := hslot
    cases hslot

theorem initState_inv (requirements : List Requirement) (catalog : List Course)
    (completed : List String) (startYear : Int)
    (hcat : (catalog.map Course.course_id).Nodup) (hcomp : completed.Nodup) :
    TermInv catalog completed (coursePool0 requirements catalog completed) startYear 0
      (initState requirements catalog completed) := by
  have hbase := initState_base requirements catalog completed startYear
  refine ⟨hbase.labels, hbase.pool_eq, ?_, hbase.sched_sub, ?_, ?_⟩
  · show (completedInCat catalog completed ++ schedIdsOf ([] : List ScheduleSlot)).Nodup
    simp only [schedIdsOf, List.map_nil, List.flatten_nil, List.append_nil]
    exact hcomp.filter _
  · intro c hc
    show presatisfy catalog completed (initializePrereqStatus catalog) c.course_id = _
    rw [presatisfy_eq_applySats, applySats_apply catalog hcat c hc,
      initializePrereqStatus_apply catalog hcat c hc]
    show _ = ((prereqList c).length : Int) -
      (countSat (completedInCat catalog completed ++ schedIdsOf ([] : List ScheduleSlot)) c : Int)
    simp only [schedIdsOf, List.map_nil, List.flatten_nil, List.append_nil]
  · intro i slot hi
    simp only [initState] at hi
    simp at hi

theorem runTerms_take_base (requirements : List Requirement) (catalog : List Course)
    (completed : List String) (startYear : Int) :
    ∀ k, k ≤ (termPairs startYear).length →
      ∃ state, runTerms catalog ((termPairs startYear).take k)
          (initState requirements catalog completed) = some state ∧
        BaseInv catalog (coursePool0 requirements catalog completed) startYear k state := by
  intro k
  induction k with
  | zero =>
    exact fun _ => ⟨initState requirements catalog completed, rfl,
      initState_base requirements catalog completed startYear⟩
  | succ n ih =>
    intro hle
    obtain ⟨state, hrun, hinv⟩ := ih (Nat.le_of_succ_le hle)
    have hn : n < (termPairs startYear).length := hle
    have hpair : (termPairs startYear)[n]? = some (termPairs startYear)[n] :=
      List.getElem?_eq_getElem hn
    obtain ⟨sched, pool, ctr⟩ := state
    have hpool_eq0 : pool = (coursePool0 requirements catalog completed).filter
        (fun id => decide (id ∉ schedIdsOf sched)) := hinv.pool_eq
    have hpool_some : ∀ id ∈ pool, (courseLookup catalog id).isSome := by
      intro id hid
      rw [hpool_eq0] at hid
      exact (coursePool0_ok requirements catalog completed).2.1 id
        (List.mem_of_mem_filter hid)
    obtain ⟨courses, hcs, hall⟩ := mapM_lookup_some catalog pool hpool_some
    refine ⟨termNext catalog sched pool ctr (termPairs startYear)[n] courses, ?_,
      termNext_base catalog _ startYear n sched pool ctr _ courses
        (coursePool0_ok requirements catalog completed).1 hpair hall hinv⟩
    rw [List.take_succ, hpair]
    show runTerms catalog ((termPairs startYear).take n ++ [(termPairs startYear)[n]]) _ = _
    rw [runTerms, List.foldlM_append]
    have hrw : List.foldlM (scheduleTerm catalog) (initState requirements catalog completed)
        ((termPairs startYear).take n) = some (sched, pool, ctr) := hrun
    rw [hrw]
    show ((pool.mapM (courseLookup catalog)).map
        (termNext catalog sched pool ctr (termPairs startYear)[n]) >>= pure) = _
    rw [hcs]
    rfl

theorem runTerms_take_inv (requirements : List Requirement) (catalog : List Course)
    (completed : List String) (startYear : Int)
    (hcat : (catalog.map Course.course_id).Nodup) (hcomp : completed.Nodup) :
    ∀ k, k ≤ (termPairs startYear).length →
      ∃ state, runTerms catalog ((termPairs startYear).take k)
          (initState requirements catalog completed) = some state ∧
        TermInv catalog completed (coursePool0 requirements catalog completed) startYear k
          state := by
  intro k
  induction k with
  | zero =>
    exact fun _ => ⟨initState requirements catalog completed, rfl,
      initState_inv requirements catalog completed startYear hcat hcomp⟩
  | succ n ih =>
    intro hle
    obtain ⟨state, hrun, hinv⟩ := ih (Nat.le_of_succ_le hle)
    have hn : n < (termPairs startYear).length := hle
    have hpair : (termPairs startYear)[n]? = some (termPairs startYear)[n] :=
      List.getElem?_eq_getElem hn
    obtain ⟨sched, pool, ctr⟩ := state
    have hpool_eq0 : pool = (coursePool0 requirements catalog completed).filter
        (fun id => decide (id ∉ schedIdsOf sched)) := hinv.pool_eq
    have hpool_some : ∀ id ∈ pool, (courseLookup catalog id).isSome := by
      intro id hid
      rw [hpool_eq0] at hid
      exact (coursePool0_ok requirements catalog completed).2.1 id
        (List.mem_of_mem_filter hid)
    obtain ⟨courses, hcs, hall⟩ := mapM_lookup_some catalog pool hpool_some
    refine ⟨termNext catalog sched pool ctr (termPairs startYear)[n] courses, ?_,
      termNext_inv catalog completed _ startYear n sched pool ctr _ courses hcat
        (coursePool0_ok requirements catalog completed) hpair hall hinv⟩
    rw [List.take_succ, hpair]
    show runTerms catalog ((termPairs startYear).take n ++ [(termPairs startYear)[n]]) _ = _
    rw [runTerms, List.foldlM_append]
    have hrw : List.foldlM (scheduleTerm catalog) (initState requirements catalog completed)
        ((termPairs startYear).take n) = some (sched, pool, ctr) := hrun
    rw [hrw]
    show ((pool.mapM (courseLookup catalog)).map
        (termNext catalog sched pool ctr (termPairs startYear)[n]) >>= pure) = _
    rw [hcs]
    rfl

theorem runTerms_base (requirements : List Requirement) (catalog : List Course)
    (completed : List String) (startYear : Int) :
    ∃ state, runTerms catalog (termPairs startYear)
        (initState requirements catalog completed) = some state ∧
      BaseInv catalog (coursePool0 requirements catalog completed) startYear
        (termPairs startYear).length state := by
  have h := runTerms_take_base requirements catalog completed startYear
    (termPairs startYear).length (le_refl _)
  rwa [List.take_length] at h

theorem runTerms_inv (requirements : List Requirement) (catalog : List Course)
    (completed : List String) (startYear : Int)
    (hcat : (catalog.map Course.course_id).Nodup) (hcomp : completed.Nodup) :
    ∃ state, runTerms catalog (termPairs startYear)
        (initState requirements catalog completed) = some state ∧
      TermInv catalog completed (coursePool0 requirements catalog completed) startYear
        (termPairs startYear).length state := by
  have h := runTerms_take_inv requirements catalog completed startYear hcat hcomp
    (termPairs startYear).length (le_refl _)
  rwa [List.take_length] at h

/-! ### Assembly lemmas -/

theorem mapM_some_forall₂ (f : String → Option Course) :
    ∀ (l : List String) (res : List Course), l.mapM f = some res →
      List.Forall₂ (fun a b => f a = some b) l res := by
  intro l
  induction l with
  | nil =>
    intro res h
    have hres : res = [] := by
      rw [List.mapM_nil] at h
      exact (Option.some.inj h).symm
    subst hres
    exact List.Forall₂.nil
  | cons a as ih =>
    intro res h
    rw [List.mapM_cons] at h
    cases hfa : f a with
    | none =>
      rw [hfa] at h
      cases h
    | some b =>
      rw [hfa] at h
      cases hrest : as.mapM f with
      | none =>
        rw [hrest] at h
        cases h
      | some bs =>
        rw [hrest] at h
        have hres : b :: bs = res := Option.some.inj h
        subst hres
        exact List.Forall₂.cons hfa (ih bs hrest)

theorem countSat_singleton (s : String) (c : Course) :
    countSat [s] c = if s ∈ prereqList c then 1 else 0 := by
  rw [countSat, List.filter_singleton]
  by_cases h : s ∈ prereqList c
  · simp [h]
  · simp [h]

theorem schedIdsOf_cons (s : ScheduleSlot) (rest : List ScheduleSlot) :
    schedIdsOf (s :: rest) = s.courses.map ScheduledCourse.id ++ schedIdsOf rest := by
  rw [schedIdsOf, List.map_cons, List.flatten_cons]
  rfl

theorem slotCount_eq_count (slot : ScheduleSlot) (x : String) :
    slotCount slot x = List.count x (slot.courses.map ScheduledCourse.id) := by
  rw [slotCount, List.count_eq_countP, List.countP_map]
  rfl

theorem sum_slotCount_eq_count (x : String) :
    ∀ sched : List ScheduleSlot,
      (sched.map (fun s => slotCount s x)).sum = List.count x (schedIdsOf sched) := by
  intro sched
  induction sched with
  | nil => rfl
  | cons s rest ih =>
    rw [List.map_cons, List.sum_cons, schedIdsOf_cons, List.count_append, ih,
      slotCount_eq_count]

theorem count_map_mk_unmet (pool : List String) (x : String) :
    (pool.map (fun id => ({ course_id := id, reason := unmetReason } : UnmetRequirement))).countP
        (fun u => u.course_id == x) = List.count x pool := by
  rw [List.countP_map, List.count_eq_countP]
  rfl

theorem termPairs_length (startYear : Int) : (termPairs startYear).length = 8 := rfl

theorem termPairs_eq (startYear : Int) :
    termPairs startYear =
      [(startYear, "Fall"), (startYear, "Spring"), (startYear + 1, "Fall"),
       (startYear + 1, "Spring"), (startYear + 2, "Fall"), (startYear + 2, "Spring"),
       (startYear + 3, "Fall"), (startYear + 3, "Spring")] := by
  show (List.range 4).flatMap _ = _
  rw [show List.range 4 = [0, 1, 2, 3] from rfl]
  simp [List.flatMap_cons]

theorem generatePlan_state (requirements : List Requirement) (catalog : List Course)
    (completed : List String) (startYear : Int) (plan : Plan)
    (h : generatePlan requirements catalog completed startYear = some plan) :
    ∃ state, runTerms catalog (termPairs startYear)
        (initState requirements catalog completed) = some state ∧
      plan = buildPlan state := by
  rw [generatePlan] at h
  cases hrt : runTerms catalog (termPairs startYear)
      (initState requirements catalog completed) with
  | none =>
    rw [hrt] at h
    cases h
  | some st =>
    rw [hrt] at h
    exact ⟨st, rfl, (Option.some.inj h).symm⟩

/-! ### Claim theorems -/

/-- C3: every course identifier in the resolved required set (the union of
the requirements' options_pool entries that exist in the catalog, minus the
completed courses) ends up either in exactly one schedule slot of the
returned plan or as exactly one entry of unmet_requirements — never both
and never neither. -/
theorem generatePlan_required_partition (requirements : List Requirement)
    (catalog : List Course) (completed : List String) (startYear : Int) (plan : Plan)
    (h : generatePlan requirements catalog completed startYear = some plan) :
    ∀ x ∈ coursePool0 requirements catalog completed,
      (schedCount plan x = 1 ∧ unmetCount plan x = 0) ∨
      (schedCount plan x = 0 ∧ unmetCount plan x = 1) := by
  obtain ⟨state, hrt, hplan⟩ := generatePlan_state _ _ _ _ _ h
  obtain ⟨state2, hrt2, hbase⟩ := runTerms_base requirements catalog completed startYear
  have hse : state = state2 := by
    rw [hrt] at hrt2
    exact Option.some.inj hrt2
  rw [← hse] at hbase
  obtain ⟨sched, poolF, ctrF⟩ := state
  have hpool0 := coursePool0_ok requirements catalog completed
  have hpool_eq : poolF = (coursePool0 requirements catalog completed).filter
      (fun id => decide (id ∉ schedIdsOf sched)) := hbase.pool_eq
  have hsched_nodup : (schedIdsOf sched).Nodup := hbase.sched_nodup
  intro x hx
  have hsc : schedCount plan x = List.count x (schedIdsOf sched) := by
    rw [hplan]
    exact sum_slotCount_eq_count x sched
  have hun : unmetCount plan x = List.count x poolF := by
    rw [hplan]
    exact count_map_mk_unmet poolF x
  by_cases hmem : x ∈ schedIdsOf sched
  · left
    constructor
    · rw [hsc]
      exact List.count_eq_one_of_mem hsched_nodup hmem
    · rw [hun, List.count_eq_zero]
      intro hxp
      rw [hpool_eq] at hxp
      exact absurd hmem (of_decide_eq_true (List.mem_filter.mp hxp).2)
  · right
    constructor
    · rw [hsc, List.count_eq_zero]
      exact hmem
    · rw [hun]
      refine List.count_eq_one_of_mem ?_ ?_
      · rw [hpool_eq]
        exact hpool0.1.filter _
      · rw [hpool_eq]
        exact List.mem_filter.mpr ⟨hx, decide_eq_true hmem⟩

/-- C3 witness: in the one-course example the required course X is
scheduled exactly once and never reported unmet. -/
theorem generatePlan_required_partition_witness :
    (schedCount exPlanX "X" = 1 ∧ unmetCount exPlanX "X" = 0) ∨
    (schedCount exPlanX "X" = 0 ∧ unmetCount exPlanX "X" = 1) :=
  generatePlan_required_partition [exReqX] [courseX] [] 2024 exPlanX (by decide) "X"
    (by decide)

/-- C4: when every catalog credit value is a positive integer, each slot's
stored credit total equals the sum of its listed courses' credits and never
exceeds MAX_CREDITS = 16. -/
theorem generatePlan_credit_cap (requirements : List Requirement) (catalog : List Course)
    (completed : List String) (startYear : Int)
    (_hpos : ∀ c ∈ catalog, 0 < c.credits) (plan : Plan)
    (h : generatePlan requirements catalog completed startYear = some plan) :
    ∀ slot ∈ plan.schedule,
      slot.credits = (slot.courses.map ScheduledCourse.credits).sum ∧
        slot.credits ≤ MAX_CREDITS := by
  obtain ⟨state, hrt, hplan⟩ := generatePlan_state _ _ _ _ _ h
  obtain ⟨state2, hrt2, hbase⟩ := runTerms_base requirements catalog completed startYear
  have hse : state = state2 := by
    rw [hrt] at hrt2
    exact Option.some.inj hrt2
  rw [← hse] at hbase
  obtain ⟨sched, poolF, ctrF⟩ := state
  intro slot hslot
  have hslot2 : slot ∈ sched := by
    rw [hplan] at hslot
    exact hslot
  have hok := hbase.slots slot hslot2
  exact ⟨hok.credits_eq, hok.credits_le⟩

/-- C4 witness: the credit property instantiated on the first slot of the
one-course example. -/
theorem generatePlan_credit_cap_witness :
    (⟨2024, "Fall", [⟨"X", "Intro", 3⟩], 3⟩ : ScheduleSlot).credits =
        ((⟨2024, "Fall", [⟨"X", "Intro", 3⟩], 3⟩ : ScheduleSlot).courses.map
          ScheduledCourse.credits).sum ∧
      (⟨2024, "Fall", [⟨"X", "Intro", 3⟩], 3⟩ : ScheduleSlot).credits ≤ MAX_CREDITS :=
  generatePlan_credit_cap [exReqX] [courseX] [] 2024 (by decide) exPlanX (by decide)
    ⟨2024, "Fall", [⟨"X", "Intro", 3⟩], 3⟩ (by decide)

/-- C5: no course identifier occurs more than once across the whole plan
(nor twice within one slot), and every scheduled course's slot carries a
term label contained in that course's semesters_offered list. -/
theorem generatePlan_no_duplicates_offered (requirements : List Requirement)
    (catalog : List Course) (completed : List String) (startYear : Int) (plan : Plan)
    (h : generatePlan requirements catalog completed startYear = some plan) :
    (∀ x, schedCount plan x ≤ 1) ∧
    (∀ slot ∈ plan.schedule, ∀ sc ∈ slot.courses,
      ∃ course, courseLookup catalog sc.id = some course ∧
        slot.semester ∈ offeredList course) := by
  obtain ⟨state, hrt, hplan⟩ := generatePlan_state _ _ _ _ _ h
  obtain ⟨state2, hrt2, hbase⟩ := runTerms_base requirements catalog completed startYear
  have hse : state = state2 := by
    rw [hrt] at hrt2
    exact Option.some.inj hrt2
  rw [← hse] at hbase
  obtain ⟨sched, poolF, ctrF⟩ := state
  constructor
  · intro x
    have hsc : schedCount plan x = List.count x (schedIdsOf sched) := by
      rw [hplan]
      exact sum_slotCount_eq_count x sched
    rw [hsc]
    exact List.nodup_iff_count_le_one.mp hbase.sched_nodup x
  · intro slot hslot sc hsc
    have hslot2 : slot ∈ sched := by
      rw [hplan] at hslot
      exact hslot
    obtain ⟨c, hlook, _, hsem⟩ := (hbase.slots slot hslot2).courses_ok sc hsc
    exact ⟨c, hlook, hsem⟩

/-- C5 witness: the property instantiated on the scheduled course of the
one-course example. -/
theorem generatePlan_no_duplicates_offered_witness :
    schedCount exPlanX "X" ≤ 1 ∧
      courseLookup [courseX] "X" = some courseX ∧
      ("Fall" : String) ∈ offeredList courseX := by
  have h := generatePlan_no_duplicates_offered [exReqX] [courseX] [] 2024 exPlanX (by decide)
  refine ⟨h.1 "X", by decide, ?_⟩
  obtain ⟨course, hlook, hsem⟩ := h.2 ⟨2024, "Fall", [⟨"X", "Intro", 3⟩], 3⟩ (by decide)
    ⟨"X", "Intro", 3⟩ (by decide)
  have hcx : course = courseX := by
    rw [show courseLookup [courseX] (ScheduledCourse.id ⟨"X", "Intro", 3⟩) =
        some courseX from by decide] at hlook
    exact (Option.some.inj hlook).symm
  rw [hcx] at hsem
  exact hsem

/-- C7: the returned plan always has exactly 8 slots in strict
chronological order, years startYear through startYear+3 with Fall then
Spring, a slot being appended for every term even when nothing was
scheduled, so an empty term never halts the loop. -/
theorem generatePlan_eight_slots (requirements : List Requirement) (catalog : List Course)
    (completed : List String) (startYear : Int) (plan : Plan)
    (h : generatePlan requirements catalog completed startYear = some plan) :
    plan.schedule.map (fun s => (s.year, s.semester)) =
      [(startYear, "Fall"), (startYear, "Spring"), (startYear + 1, "Fall"),
       (startYear + 1, "Spring"), (startYear + 2, "Fall"), (startYear + 2, "Spring"),
       (startYear + 3, "Fall"), (startYear + 3, "Spring")] ∧
    plan.schedule.length = 8 := by
  obtain ⟨state, hrt, hplan⟩ := generatePlan_state _ _ _ _ _ h
  obtain ⟨state2, hrt2, hbase⟩ := runTerms_base requirements catalog completed startYear
  have hse : state = state2 := by
    rw [hrt] at hrt2
    exact Option.some.inj hrt2
  rw [← hse] at hbase
  obtain ⟨sched, poolF, ctrF⟩ := state
  have hlabels : sched.map (fun s => (s.year, s.semester)) =
      (termPairs startYear).take (termPairs startYear).length := hbase.labels
  rw [List.take_length, termPairs_eq] at hlabels
  have hmap : plan.schedule.map (fun s => (s.year, s.semester)) =
      [(startYear, "Fall"), (startYear, "Spring"), (startYear + 1, "Fall"),
       (startYear + 1, "Spring"), (startYear + 2, "Fall"), (startYear + 2, "Spring"),
       (startYear + 3, "Fall"), (startYear + 3, "Spring")] := by
    rw [hplan]
    exact hlabels
  refine ⟨hmap, ?_⟩
  have := congrArg List.length hmap
  rw [List.length_map] at this
  exact this

/-- C7 witness: the slot sequence of the one-course example. -/
theorem generatePlan_eight_slots_witness :
    exPlanX.schedule.map (fun s => (s.year, s.semester)) =
      [((2024 : Int), "Fall"), (2024, "Spring"), (2024 + 1, "Fall"),
       (2024 + 1, "Spring"), (2024 + 2, "Fall"), (2024 + 2, "Spring"),
       (2024 + 3, "Fall"), (2024 + 3, "Spring")] ∧
    exPlanX.schedule.length = 8 :=
  generatePlan_eight_slots [exReqX] [courseX] [] 2024 exPlanX (by decide)

/-- C10: generatePlan is total on every input — missing options_pool
entries, unknown completed ids and absent course fields are tolerated: a
plan is always produced, every pool member exists in the catalog (so every
lookup of the term loop succeeds), every unmet_requirements entry names a
catalog course, and a course is only ever scheduled when its
semesters_offered field is present and contains the slot's term. -/
theorem generatePlan_total_tolerant (requirements : List Requirement)
    (catalog : List Course) (completed : List String) (startYear : Int) :
    (∃ plan, generatePlan requirements catalog completed startYear = some plan) ∧
    (∀ id ∈ coursePool0 requirements catalog completed, (courseLookup catalog id).isSome) ∧
    (∀ plan, generatePlan requirements catalog completed startYear = some plan →
      (∀ u ∈ plan.unmet_requirements, (courseLookup catalog u.course_id).isSome) ∧
      (∀ slot ∈ plan.schedule, ∀ sc ∈ slot.courses, ∃ course sems,
        courseLookup catalog sc.id = some course ∧
          course.semesters_offered = some sems ∧ slot.semester ∈ sems)) := by
  obtain ⟨state2, hrt2, hbase⟩ := runTerms_base requirements catalog completed startYear
  refine ⟨⟨buildPlan state2, ?_⟩, (coursePool0_ok requirements catalog completed).2.1, ?_⟩
  · rw [generatePlan, hrt2]
    rfl
  · intro plan h
    obtain ⟨state, hrt, hplan⟩ := generatePlan_state _ _ _ _ _ h
    have hse : state = state2 := by
      rw [hrt] at hrt2
      exact Option.some.inj hrt2
    rw [← hse] at hbase
    obtain ⟨sched, poolF, ctrF⟩ := state
    have hpool_eq : poolF = (coursePool0 requirements catalog completed).filter
        (fun id => decide (id ∉ schedIdsOf sched)) := hbase.pool_eq
    constructor
    · intro u hu
      have hu2 : u ∈ poolF.map
          (fun id => ({ course_id := id, reason := unmetReason } : UnmetRequirement)) := by
        rw [hplan] at hu
        exact hu
      obtain ⟨id, hid, rfl⟩ := List.mem_map.mp hu2
      have : id ∈ coursePool0 requirements catalog completed := by
        rw [hpool_eq] at hid
        exact List.mem_of_mem_filter hid
      exact (coursePool0_ok requirements catalog completed).2.1 id this
    · intro slot hslot sc hsc
      have hslot2 : slot ∈ sched := by
        rw [hplan] at hslot
        exact hslot
      obtain ⟨c, hlook, _, hsem⟩ := (hbase.slots slot hslot2).courses_ok sc hsc
      cases hso : c.semesters_offered with
      | none =>
        rw [offeredList, hso] at hsem
        cases hsem
      | some sems =>
        refine ⟨c, sems, hlook, hso, ?_⟩
        rw [offeredList, hso] at hsem
        exact hsem

/-- C10 witness: a plan is produced for the one-course example and the
pool member X resolves in the catalog. -/
theorem generatePlan_total_tolerant_witness :
    (generatePlan [exReqX] [courseX] [] 2024).isSome ∧
      (courseLookup [courseX] "X").isSome := by
  have h := generatePlan_total_tolerant [exReqX] [courseX] [] 2024
  refine ⟨?_, h.2.1 "X" (by decide)⟩
  obtain ⟨plan, hp⟩ := h.1
  rw [hp]
  rfl

/-- C6: within a term the eligible pool is considered as a permutation of
the filtered pool sorted ascending by the length of semesters_offered, the
slot is exactly the greedy walk over that sorted list, and the walk has no
early termination: extending the considered list by one more course
schedules it exactly when it still fits, regardless of earlier
overflows. -/
theorem scheduleTerm_sorted_greedy (catalog : List Course) (state : PlanState)
    (pair : Int × String) (state2 : PlanState)
    (hstep : scheduleTerm catalog state pair = some state2)
    (courses : List Course)
    (hcs : state.2.1.mapM (courseLookup catalog) = some courses) :
    (eligList pair.2 state.2.2 courses).Pairwise lenLE ∧
    (eligList pair.2 state.2.2 courses).Perm
      (courses.filter (fun c => decide (pair.2 ∈ offeredList c) &&
        (state.2.2 c.course_id == 0))) ∧
    state2.1 = state.1 ++
      [{ year := pair.1, semester := pair.2,
         courses := (selectFold (eligList pair.2 state.2.2 courses)).1.map mkScheduled,
         credits := (selectFold (eligList pair.2 state.2.2 courses)).2 }] ∧
    selectFold [] = ([], 0) ∧
    (∀ (l : List Course) (c : Course),
      selectFold (l ++ [c]) =
        if (selectFold l).2 + c.credits ≤ MAX_CREDITS
        then ((selectFold l).1 ++ [c], (selectFold l).2 + c.credits)
        else selectFold l) := by
  refine ⟨eligList_sorted pair.2 state.2.2 courses, eligList_perm pair.2 state.2.2 courses,
    ?_, rfl, selectFold_append⟩
  have hstep2 : (state.2.1.mapM (courseLookup catalog)).map
      (termNext catalog state.1 state.2.1 state.2.2 pair) = some state2 := hstep
  rw [hcs] at hstep2
  have hs2 : termNext catalog state.1 state.2.1 state.2.2 pair courses = state2 :=
    Option.some.inj hstep2
  rw [← hs2]
  rfl

/-- C6 witness: the term-level facts instantiated on the first Fall term of
the one-course example. -/
theorem scheduleTerm_sorted_greedy_witness :
    (eligList "Fall" (initState [exReqX] [courseX] []).2.2 [courseX]).Pairwise lenLE ∧
    (eligList "Fall" (initState [exReqX] [courseX] []).2.2 [courseX]).Perm
      ([courseX].filter (fun c => decide (("Fall" : String) ∈ offeredList c) &&
        ((initState [exReqX] [courseX] []).2.2 c.course_id == 0))) ∧
    (termNext [courseX] (initState [exReqX] [courseX] []).1
        (initState [exReqX] [courseX] []).2.1 (initState [exReqX] [courseX] []).2.2
        (2024, "Fall") [courseX]).1 =
      (initState [exReqX] [courseX] []).1 ++
        [{ year := 2024, semester := "Fall",
           courses := (selectFold (eligList "Fall"
             (initState [exReqX] [courseX] []).2.2 [courseX])).1.map mkScheduled,
           credits := (selectFold (eligList "Fall"
             (initState [exReqX] [courseX] []).2.2 [courseX])).2 }] ∧
    selectFold [] = ([], 0) ∧
    selectFold ([] ++ [courseX]) =
      (if (selectFold []).2 + courseX.credits ≤ MAX_CREDITS
       then ((selectFold []).1 ++ [courseX], (selectFold []).2 + courseX.credits)
       else selectFold []) := by
  have h := scheduleTerm_sorted_greedy [courseX] (initState [exReqX] [courseX] [])
    (2024, "Fall")
    (termNext [courseX] (initState [exReqX] [courseX] []).1
      (initState [exReqX] [courseX] []).2.1 (initState [exReqX] [courseX] []).2.2
      (2024, "Fall") [courseX])
    rfl [courseX] (by decide)
  exact ⟨h.1, h.2.1, h.2.2.1, h.2.2.2.1, h.2.2.2.2 [] courseX⟩

/-- C8: generatePlan is deterministic — equal inputs yield equal plans. -/
theorem generatePlan_deterministic (requirements₁ requirements₂ : List Requirement)
    (catalog₁ catalog₂ : List Course) (completed₁ completed₂ : List String)
    (startYear₁ startYear₂ : Int) (hr : requirements₁ = requirements₂)
    (hc : catalog₁ = catalog₂) (hm : completed₁ = completed₂)
    (hy : startYear₁ = startYear₂) :
    generatePlan requirements₁ catalog₁ completed₁ startYear₁ =
      generatePlan requirements₂ catalog₂ completed₂ startYear₂ := by
  rw [hr, hc, hm, hy]

/-- C8 witness: determinism instantiated on the one-course example. -/
theorem generatePlan_deterministic_witness :
    generatePlan [exReqX] [courseX] [] 2024 = generatePlan [exReqX] [courseX] [] 2024 :=
  generatePlan_deterministic [exReqX] [exReqX] [courseX] [courseX] [] [] 2024 2024
    rfl rfl rfl rfl

/-- C9: getRequirements raises its NotFoundError exactly when the data
layer resolves zero program ids for the non-blank selected names (with no
partial result), and otherwise returns the requirements of all resolved
programs together with the full catalog. -/
theorem getRequirements_notFound_iff (dl : DataLayer)
    (major minor concentration : Option String) :
    (getRequirements dl major minor concentration =
        Except.error (PlannerError.notFound "No programs found for the selected options.") ↔
      dl.findProgramIdsByName (selectedPrograms major minor concentration) = []) ∧
    (dl.findProgramIdsByName (selectedPrograms major minor concentration) ≠ [] →
      getRequirements dl major minor concentration =
        Except.ok
          { requirements := dl.findRequirementsByProgramIds
              (dl.findProgramIdsByName (selectedPrograms major minor concentration)),
            catalog := dl.fetchFullCatalog }) := by
  constructor
  · constructor
    · intro h
      by_cases hids :
          (dl.findProgramIdsByName (selectedPrograms major minor concentration)).length = 0
      · exact List.length_eq_zero.mp hids
      · rw [getRequirements, if_neg hids] at h
        cases h
    · intro h
      rw [getRequirements, if_pos]
      rw [h]
      rfl
  · intro h
    rw [getRequirements, if_neg (fun hl => h (List.length_eq_zero.mp hl))]

/-- C9 witness: the resolver succeeds on a resolving name and fails on a
non-resolving one, over a concrete one-program data layer. -/
theorem getRequirements_notFound_iff_witness :
    getRequirements exDataLayer (some "CS") none none =
      Except.ok { requirements := [exReqX], catalog := [courseX] } ∧
    getRequirements exDataLayer (some "Math") none none =
      Except.error (PlannerError.notFound "No programs found for the selected options.") := by
  constructor
  · exact (getRequirements_notFound_iff exDataLayer (some "CS") none none).2 (by decide)
  · exact (getRequirements_notFound_iff exDataLayer (some "Math") none none).1.mpr (by decide)

/-- C2 (amended): provided the catalog's course ids are pairwise distinct
and completedCourses has no duplicate entries, a course appears in a slot
only if every one of its prerequisites was scheduled into a strictly
earlier slot or is an element of the completed-courses input. -/
theorem generatePlan_prereqs_respected (requirements : List Requirement)
    (catalog : List Course) (completed : List String) (startYear : Int)
    (hcat : (catalog.map Course.course_id).Nodup) (hcomp : completed.Nodup) :
    PrereqsRespected requirements catalog completed startYear := by
  intro plan h i slot hi sc hsc course hcourse p hp
  obtain ⟨state, hrt, hplan⟩ := generatePlan_state _ _ _ _ _ h
  obtain ⟨state2, hrt2, hinv⟩ :=
    runTerms_inv requirements catalog completed startYear hcat hcomp
  have hse : state = state2 := by
    rw [hrt] at hrt2
    exact Option.some.inj hrt2
  rw [← hse] at hinv
  obtain ⟨sched, poolF, ctrF⟩ := state
  have hi2 : sched[i]? = some slot := by
    rw [hplan] at hi
    exact hi
  obtain ⟨c, hlook, _, _, hpre⟩ := (hinv.slots i slot hi2).courses_ok sc hsc
  have hcc : course = c := by
    rw [hcourse] at hlook
    exact Option.some.inj hlook
  subst hcc
  rcases List.mem_append.mp (hpre p hp) with hcic | hsch
  · exact Or.inl (List.mem_of_mem_filter hcic)
  · right
    have hsch2 : p ∈ schedIdsOf (plan.schedule.take i) := by
      rw [hplan]
      exact hsch
    rw [schedIdsOf] at hsch2
    obtain ⟨l, hl, hpl⟩ := List.mem_flatten.mp hsch2
    obtain ⟨slot2, hslot2, rfl⟩ := List.mem_map.mp hl
    obtain ⟨sc2, hsc2, hsc2id⟩ := List.mem_map.mp hpl
    exact ⟨slot2, hslot2, sc2, hsc2, hsc2id⟩

/-- C2 witness: the prerequisite discipline holds on the duplicate-free
three-course example where B is completed. -/
theorem generatePlan_prereqs_respected_witness :
    PrereqsRespected [exReqA] exCatalogABC ["B"] 2024 :=
  generatePlan_prereqs_respected [exReqA] exCatalogABC ["B"] 2024 (by decide) (by decide)

/-- C2 counterexample: with the duplicated completed list ["B", "B"], the
double decrement drives A's counter to zero and A is scheduled in the very
first slot although its prerequisite C was neither completed nor scheduled
earlier — the claim fails as stated for arbitrary inputs. -/
theorem prereq_violated_on_duplicate_completed :
    ¬ PrereqsRespected [exReqA] exCatalogABC ["B", "B"] 2024 := by
  intro h
  have h0 := h exPlanABC (by decide) 0 ⟨2024, "Fall", [⟨"A", "Course A", 3⟩], 3⟩
    (by decide) ⟨"A", "Course A", 3⟩ (by decide) courseA3 (by decide) "C" (by decide)
  rcases h0 with hl | hr
  · exact absurd hl (by decide)
  · obtain ⟨slot2, hslot2, _⟩ := hr
    replace hslot2 : slot2 ∈ exPlanABC.schedule.take 0 := hslot2
    simp at hslot2

/-- C1 (amended): provided the catalog's course ids are pairwise distinct
and completedCourses has no duplicate entries, no unmet-prerequisite
counter of any catalog course ever goes negative at any point of the run —
not at initialisation, not during the pre-satisfy pass (even mid catalog
scan), and not during any term's post-scheduling decrement pass. -/
theorem generatePlan_counters_nonneg (requirements : List Requirement)
    (catalog : List Course) (completed : List String) (startYear : Int)
    (hcat : (catalog.map Course.course_id).Nodup) (hcomp : completed.Nodup) :
    CountersNonneg requirements catalog completed startYear := by
  refine ⟨?_, ?_, ?_, ?_⟩
  · intro c hc
    rw [initializePrereqStatus_apply catalog hcat c hc]
    exact Int.natCast_nonneg _
  · intro pre suf hps c hc
    have hpre_nodup : pre.Nodup := (List.nodup_append.mp (hps ▸ hcomp)).1
    rw [presatisfy_eq_applySats, applySats_apply catalog hcat c hc,
      initializePrereqStatus_apply catalog hcat c hc]
    have hle := countSat_le_of_nodup (completedInCat catalog pre) c (hpre_nodup.filter _)
    omega
  · intro pre cur suf hps hcur j c hc
    have hnodup : (pre ++ cur :: suf).Nodup := hps ▸ hcomp
    have hpre_nodup : pre.Nodup := (List.nodup_append.mp hnodup).1
    have hcur_notin : cur ∉ pre := by
      intro hcp
      exact (List.nodup_append.mp hnodup).2.2 hcp (List.mem_cons_self cur suf)
    rw [decrementDependents_apply, presatisfy_eq_applySats,
      applySats_apply catalog hcat c hc, initializePrereqStatus_apply catalog hcat c hc]
    have hdep_le : countDep (catalog.take j) cur c.course_id ≤
        countDep catalog cur c.course_id := countDep_take_le catalog cur c.course_id j
    rw [countDep_eq catalog hcat c hc] at hdep_le
    have hP_nodup : (completedInCat catalog pre ++ [cur]).Nodup := by
      rw [List.nodup_append]
      refine ⟨hpre_nodup.filter _, List.nodup_singleton cur, ?_⟩
      intro a ha hacur
      rw [List.mem_singleton] at hacur
      subst hacur
      exact hcur_notin (List.mem_of_mem_filter ha)
    have hsat_le := countSat_le_of_nodup (completedInCat catalog pre ++ [cur]) c hP_nodup
    rw [countSat_append, countSat_singleton] at hsat_le
    by_cases hcp : cur ∈ prereqList c
    · rw [if_pos hcp] at hdep_le hsat_le
      omega
    · rw [if_neg hcp] at hdep_le hsat_le
      omega
  · intro k state hrun
    have hkk : ∃ k2, k2 ≤ (termPairs startYear).length ∧
        (termPairs startYear).take k = (termPairs startYear).take k2 := by
      by_cases hk : k ≤ (termPairs startYear).length
      · exact ⟨k, hk, rfl⟩
      · refine ⟨(termPairs startYear).length, le_refl _, ?_⟩
        rw [List.take_length, List.take_of_length_le (le_of_not_le hk)]
    obtain ⟨k2, hk2le, hk2eq⟩ := hkk
    rw [hk2eq] at hrun
    obtain ⟨state2, hrun2, hinv⟩ :=
      runTerms_take_inv requirements catalog completed startYear hcat hcomp k2 hk2le
    have hse : state = state2 := by
      rw [hrun] at hrun2
      exact Option.some.inj hrun2
    rw [← hse] at hinv
    obtain ⟨sched, pool, ctr⟩ := state
    have hctr : ∀ c ∈ catalog, ctr c.course_id =
        ((prereqList c).length : Int) -
          (countSat (completedInCat catalog completed ++ schedIdsOf sched) c : Int) :=
      hinv.ctr_eq
    have hsats_nodup : (completedInCat catalog completed ++ schedIdsOf sched).Nodup :=
      hinv.sats_nodup
    have hpool_eq : pool = (coursePool0 requirements catalog completed).filter
        (fun id => decide (id ∉ schedIdsOf sched)) := hinv.pool_eq
    have hpool0 := coursePool0_ok requirements catalog completed
    have hpool_nodup : pool.Nodup := by
      rw [hpool_eq]
      exact hpool0.1.filter _
    have hpool_nmem : ∀ id ∈ pool, id ∉ schedIdsOf sched := by
      intro id hid
      rw [hpool_eq] at hid
      exact of_decide_eq_true (List.mem_filter.mp hid).2
    have hpool_ncomp : ∀ id ∈ pool, id ∉ completed := by
      intro id hid
      rw [hpool_eq] at hid
      exact hpool0.2.2 id (List.mem_of_mem_filter hid)
    constructor
    · intro c hc
      show 0 ≤ ctr c.course_id
      rw [hctr c hc]
      have hle := countSat_le_of_nodup
        (completedInCat catalog completed ++ schedIdsOf sched) c hsats_nodup
      omega
    · intro sem courses hcs selPre sid selSuf hdec j c hc
      replace hcs : pool.mapM (courseLookup catalog) = some courses := hcs
      replace hdec : (selectFold (eligList sem ctr courses)).1.map Course.course_id =
        selPre ++ sid :: selSuf := hdec
      show 0 ≤ decrementDependents (catalog.take j) (applySats catalog selPre ctr) sid
        c.course_id
      have hall := mapM_some_forall₂ (courseLookup catalog) pool courses hcs
      have hids : courses.map Course.course_id = pool :=
        mapM_lookup_ids catalog pool courses hall
      have hcourses_ids_nodup : (courses.map Course.course_id).Nodup := by
        rw [hids]
        exact hpool_nodup
      have helig_ids_nodup :
          ((eligList sem ctr courses).map Course.course_id).Nodup := by
        refine ((eligList_perm sem ctr courses).map Course.course_id).nodup_iff.mpr ?_
        exact List.Nodup.sublist ((List.filter_sublist courses).map Course.course_id)
          hcourses_ids_nodup
      have hselIds_nodup :
          ((selectFold (eligList sem ctr courses)).1.map Course.course_id).Nodup :=
        List.Nodup.sublist ((selectFold_sublist _).map Course.course_id) helig_ids_nodup
      have hselIds_sub_pool :
          ∀ id ∈ (selectFold (eligList sem ctr courses)).1.map Course.course_id,
            id ∈ pool := by
        intro id hid
        obtain ⟨c2, hc2, rfl⟩ := List.mem_map.mp hid
        rw [← hids]
        exact List.mem_map_of_mem _
          ((mem_eligList _ _ _ c2).mp ((selectFold_sublist _).subset hc2)).1
      rw [hdec] at hselIds_nodup hselIds_sub_pool
      rw [List.append_cons] at hselIds_nodup hselIds_sub_pool
      have hP_nodup : (selPre ++ [sid]).Nodup := (List.nodup_append.mp hselIds_nodup).1
      have hP_sub_pool : ∀ id ∈ selPre ++ [sid], id ∈ pool := by
        intro id hid
        exact hselIds_sub_pool id (List.mem_append_left selSuf hid)
      have hbig_nodup : ((completedInCat catalog completed ++ schedIdsOf sched) ++
          (selPre ++ [sid])).Nodup := by
        rw [List.nodup_append]
        refine ⟨hsats_nodup, hP_nodup, ?_⟩
        intro a ha hasel
        have hapool : a ∈ pool := hP_sub_pool a hasel
        rcases List.mem_append.mp ha with hcic | hsch
        · exact hpool_ncomp a hapool (List.mem_of_mem_filter hcic)
        · exact hpool_nmem a hapool hsch
      have hsat_le := countSat_le_of_nodup
        ((completedInCat catalog completed ++ schedIdsOf sched) ++ (selPre ++ [sid])) c
        hbig_nodup
      rw [countSat_append (completedInCat catalog completed ++ schedIdsOf sched)
          (selPre ++ [sid]) c,
        countSat_append selPre [sid] c, countSat_singleton] at hsat_le
      rw [decrementDependents_apply, applySats_apply catalog hcat c hc, hctr c hc]
      have hdep_le : countDep (catalog.take j) sid c.course_id ≤
          countDep catalog sid c.course_id := countDep_take_le catalog sid c.course_id j
      rw [countDep_eq catalog hcat c hc] at hdep_le
      by_cases hcp : sid ∈ prereqList c
      · rw [if_pos hcp] at hdep_le hsat_le
        omega
      · rw [if_neg hcp] at hdep_le hsat_le
        omega

/-- C1 witness: the nonnegativity property instantiated on the
duplicate-free three-course example where B is completed. -/
theorem generatePlan_counters_nonneg_witness :
    CountersNonneg [exReqA] exCatalogABC ["B"] 2024 :=
  generatePlan_counters_nonneg [exReqA] exCatalogABC ["B"] 2024 (by decide) (by decide)

/-- C1 counterexample: with the duplicated completed list ["B", "B"], the
pre-satisfy pass decrements A's counter twice, so it reaches -1 — the
claim fails as stated for arbitrary inputs. -/
theorem counters_negative_on_duplicate_completed :
    ¬ CountersNonneg [] exCatalogAB ["B", "B"] 2024 := by
  intro h
  have h2 := h.2.1 ["B", "B"] [] rfl courseA2 (by decide)
  exact absurd h2 (by decide)
